import Mathlib

set_option maxHeartbeats 1000000
set_option linter.unusedSectionVars false

/-!
Shallow embedding of the Threadsafe repository: the richer hash map variant
(with a replace flag and an atomic uint64 counter), the hash set, and the
legacy hash map variant.  Each bucket holds a singly linked chain, embedded
here as a list; a table is a list of buckets plus the counter.  The uint64
counter is modelled as a natural number with explicit arithmetic mod 2 ^ 64.
The hash function is an arbitrary parameter producing the integer the code
reduces mod the bucket count.
-/

def U64 : Nat := 2 ^ 64

/-- `++count_` on the uint64 counter. -/
def incCount (c : Nat) : Nat := (c + 1) % U64

/-- `--count_` on the uint64 counter. -/
def decCount (c : Nat) : Nat := (c + (U64 - 1)) % U64

section MapDefs

variable {K V : Type} [DecidableEq K]

/-- Chain traversal of `Map::operator[]` / `Map::Find`: walk the chain,
return the value of the first node whose key matches. -/
def chainFind (key : K) : List (K × V) → Option V
  | [] => none
  | p :: rest => if p.1 = key then some p.2 else chainFind key rest

/-- Chain traversal of `Map::Contains`. -/
def chainContains (key : K) : List (K × V) → Bool
  | [] => false
  | p :: rest => if p.1 = key then true else chainContains key rest

/-- Chain part of `Map::Insert` (richer variant).  Returns the new chain,
the bool the function returns, and whether a node was appended (that is,
whether `++count_` ran).  A matching node keeps its key and, when `replace`
is set, receives the new value via `Node::Swap`; otherwise the chain is
untouched and the function reports failure.  When no node matches, a new
node is appended at the tail. -/
def chainInsert (key : K) (val : V) (replace : Bool) :
    List (K × V) → List (K × V) × Bool × Bool
  | [] => ([(key, val)], true, true)
  | p :: rest =>
    if p.1 = key then
      if replace then ((p.1, val) :: rest, true, false)
      else (p :: rest, false, false)
    else
      let r := chainInsert key val replace rest
      (p :: r.1, r.2)

/-- Chain part of `Map::Erase`: unlink the first node whose key matches.
Returns the new chain and whether a node was removed (`--count_` ran). -/
def chainErase (key : K) : List (K × V) → List (K × V) × Bool
  | [] => ([], false)
  | p :: rest =>
    if p.1 = key then (rest, true)
    else
      let r := chainErase key rest
      (p :: r.1, r.2)

/-- Chain part of `Map::FastInsert` (unlocked, used by `Resize`): a matching
node receives the new value in place (no count change); otherwise a node is
appended at the tail and the count is incremented. -/
def chainFastInsert (key : K) (val : V) : List (K × V) → List (K × V) × Bool
  | [] => ([(key, val)], true)
  | p :: rest =>
    if p.1 = key then ((p.1, val) :: rest, false)
    else
      let r := chainFastInsert key val rest
      (p :: r.1, r.2)

/-- State of the richer `Map` variant: `data_` (the bucket vector) and the
atomic counter `count_`.  `size_` is the length of `buckets`. -/
structure MapState (K V : Type) where
  buckets : List (List (K × V))
  count : Nat

/-- `Map(uint64_t size)`: `size` empty buckets, counter zero. -/
def mapEmpty (K V : Type) (n : Nat) : MapState K V := ⟨List.replicate n [], 0⟩

/-- `hash_(key) % size_`. -/
def mapIdx (hash : K → Nat) (m : MapState K V) (key : K) : Nat :=
  hash key % m.buckets.length

/-- The bucket `data_[hash_(key) % size_]`. -/
def mapBucket (hash : K → Nat) (m : MapState K V) (key : K) : List (K × V) :=
  m.buckets.getD (mapIdx hash m key) []

/-- `Map::Find` / `Map::operator[]`. -/
def mapFind (hash : K → Nat) (m : MapState K V) (key : K) : Option V :=
  chainFind key (mapBucket hash m key)

/-- `Map::Contains`. -/
def mapContains (hash : K → Nat) (m : MapState K V) (key : K) : Bool :=
  chainContains key (mapBucket hash m key)

/-- `Map::Insert(key, val, replace)`: new state plus the returned bool. -/
def mapInsert (hash : K → Nat) (m : MapState K V) (key : K) (val : V)
    (replace : Bool) : MapState K V × Bool :=
  let r := chainInsert key val replace (mapBucket hash m key)
  (⟨m.buckets.set (mapIdx hash m key) r.1,
    if r.2.2 then incCount m.count else m.count⟩, r.2.1)

/-- `Map::Erase(key)`: new state plus the returned bool. -/
def mapErase (hash : K → Nat) (m : MapState K V) (key : K) :
    MapState K V × Bool :=
  let r := chainErase key (mapBucket hash m key)
  (⟨m.buckets.set (mapIdx hash m key) r.1,
    if r.2 then decCount m.count else m.count⟩, r.2)

/-- `Map::FastInsert(key, val)` (returns nothing). -/
def mapFastInsert (hash : K → Nat) (m : MapState K V) (key : K) (val : V) :
    MapState K V :=
  let r := chainFastInsert key val (mapBucket hash m key)
  ⟨m.buckets.set (mapIdx hash m key) r.1,
   if r.2 then incCount m.count else m.count⟩

/-- `Map::Size()`: reads the counter. -/
def mapSize (m : MapState K V) : Nat := m.count

/-- Total number of live nodes across all buckets (not a source function;
the quantity the spec's size invariant speaks about). -/
def totalNodes (m : MapState K V) : Nat := (m.buckets.map List.length).sum

/-- `Map::Resize(new_size)`: no-op on 0, otherwise walk every bucket of the
old table in order and `FastInsert` every node's key/value into a fresh
table of `n` buckets, then adopt the new table. -/
def mapResize (hash : K → Nat) (m : MapState K V) (n : Nat) : MapState K V :=
  if n = 0 then m
  else m.buckets.foldl
    (fun acc c => c.foldl (fun a p => mapFastInsert hash a p.1 p.2) acc)
    (mapEmpty K V n)

/-- `Map::Resize()`: `Resize(size_ * 2)` with uint64 multiplication. -/
def mapResizeDouble (hash : K → Nat) (m : MapState K V) : MapState K V :=
  mapResize hash m ((m.buckets.length * 2) % U64)

end MapDefs

section SetDefs

variable {V : Type} [DecidableEq V]

/-- Chain traversal of `Set::Contains`. -/
def setChainContains (x : V) : List V → Bool
  | [] => false
  | v :: rest => if v = x then true else setChainContains x rest

/-- Chain part of `Set::Insert`: a matching node makes the whole call a
no-op; otherwise a node is appended at the tail (count incremented).
Returns the new chain and whether a node was appended. -/
def setChainInsert (x : V) : List V → List V × Bool
  | [] => ([x], true)
  | v :: rest =>
    if v = x then (v :: rest, false)
    else
      let r := setChainInsert x rest
      (v :: r.1, r.2)

/-- Chain part of `Set::Erase`: unlink the first matching node. -/
def setChainErase (x : V) : List V → List V × Bool
  | [] => ([], false)
  | v :: rest =>
    if v = x then (rest, true)
    else
      let r := setChainErase x rest
      (v :: r.1, r.2)

/-- Chain part of `Set::FastInsert`: a matching node makes the call a
no-op; otherwise append at the tail (count incremented). -/
def setChainFastInsert (x : V) : List V → List V × Bool
  | [] => ([x], true)
  | v :: rest =>
    if v = x then (v :: rest, false)
    else
      let r := setChainFastInsert x rest
      (v :: r.1, r.2)

/-- State of `Set`: the bucket vector and the atomic counter. -/
structure SetState (V : Type) where
  buckets : List (List V)
  count : Nat

/-- `Set(uint64_t size)`. -/
def setEmpty (V : Type) (n : Nat) : SetState V := ⟨List.replicate n [], 0⟩

/-- `hash_(value) % size_`. -/
def setIdx (hash : V → Nat) (s : SetState V) (x : V) : Nat :=
  hash x % s.buckets.length

/-- The bucket `data_[hash_(value) % size_]`. -/
def setBucket (hash : V → Nat) (s : SetState V) (x : V) : List V :=
  s.buckets.getD (setIdx hash s x) []

/-- `Set::Contains`. -/
def setContains (hash : V → Nat) (s : SetState V) (x : V) : Bool :=
  setChainContains x (setBucket hash s x)

/-- `Set::Insert(value)`: declared `void`, so only the new state comes
back. -/
def setInsert (hash : V → Nat) (s : SetState V) (x : V) : SetState V :=
  let r := setChainInsert x (setBucket hash s x)
  ⟨s.buckets.set (setIdx hash s x) r.1,
   if r.2 then incCount s.count else s.count⟩

/-- `Set::Erase(value)`: new state plus the returned bool. -/
def setErase (hash : V → Nat) (s : SetState V) (x : V) : SetState V × Bool :=
  let r := setChainErase x (setBucket hash s x)
  (⟨s.buckets.set (setIdx hash s x) r.1,
    if r.2 then decCount s.count else s.count⟩, r.2)

/-- `Set::FastInsert(value)`. -/
def setFastInsert (hash : V → Nat) (s : SetState V) (x : V) : SetState V :=
  let r := setChainFastInsert x (setBucket hash s x)
  ⟨s.buckets.set (setIdx hash s x) r.1,
   if r.2 then incCount s.count else s.count⟩

/-- `Set::Size()`. -/
def setSize (s : SetState V) : Nat := s.count

/-- Total number of live nodes across all buckets of a set. -/
def setTotalNodes (s : SetState V) : Nat := (s.buckets.map List.length).sum

/-- `Set::Resize(new_size)`. -/
def setResize (hash : V → Nat) (s : SetState V) (n : Nat) : SetState V :=
  if n = 0 then s
  else s.buckets.foldl
    (fun acc c => c.foldl (fun a x => setFastInsert hash a x) acc)
    (setEmpty V n)

/-- `Set::Resize()`: `Resize(size_ * 2)` with uint64 multiplication. -/
def setResizeDouble (hash : V → Nat) (s : SetState V) : SetState V :=
  setResize hash s ((s.buckets.length * 2) % U64)

end SetDefs

section LegacyDefs

variable {K V : Type} [DecidableEq K]

/-- Chain part of the legacy `Map::Insert` (src/map.h): a matching node
unconditionally receives the new value via `Node::Swap`; otherwise a node
is appended at the tail.  The function is `void`. -/
def lChainInsert (key : K) (val : V) : List (K × V) → List (K × V)
  | [] => [(key, val)]
  | p :: rest =>
    if p.1 = key then (p.1, val) :: rest
    else p :: lChainInsert key val rest

/-- Chain part of the legacy `Map::Erase` (src/map.h). -/
def lChainErase (key : K) : List (K × V) → List (K × V) × Bool
  | [] => ([], false)
  | p :: rest =>
    if p.1 = key then (rest, true)
    else
      let r := lChainErase key rest
      (p :: r.1, r.2)

/-- Chain traversal of the legacy `Map::operator[]` (src/map.h). -/
def lChainFind (key : K) : List (K × V) → Option V
  | [] => none
  | p :: rest => if p.1 = key then some p.2 else lChainFind key rest

/-- Chain traversal of the legacy `Map::Contains` (src/map.h). -/
def lChainContains (key : K) : List (K × V) → Bool
  | [] => false
  | p :: rest => if p.1 = key then true else lChainContains key rest

/-- State of the legacy map: just the buckets (src/map.h has no counter). -/
def LegacyState (K V : Type) : Type := List (List (K × V))

/-- Legacy `Map(uint64_t size)`. -/
def lEmpty (K V : Type) (n : Nat) : LegacyState K V := List.replicate n []

/-- Legacy bucket selection `data_[hash_(key) % size_]`. -/
def lBucket (hash : K → Nat) (b : LegacyState K V) (key : K) : List (K × V) :=
  List.getD b (hash key % List.length b) []

/-- Legacy `Map::Find` / `operator[]`. -/
def lFind (hash : K → Nat) (b : LegacyState K V) (key : K) : Option V :=
  lChainFind key (lBucket hash b key)

/-- Legacy `Map::Contains`. -/
def lContains (hash : K → Nat) (b : LegacyState K V) (key : K) : Bool :=
  lChainContains key (lBucket hash b key)

/-- Legacy `Map::Insert(key, val)` (void, no replace flag). -/
def lInsert (hash : K → Nat) (b : LegacyState K V) (key : K) (val : V) :
    LegacyState K V :=
  List.set b (hash key % List.length b) (lChainInsert key val (lBucket hash b key))

/-- Legacy `Map::Erase(key)`. -/
def lErase (hash : K → Nat) (b : LegacyState K V) (key : K) :
    LegacyState K V × Bool :=
  let r := lChainErase key (lBucket hash b key)
  (List.set b (hash key % List.length b) r.1, r.2)

end LegacyDefs

section MapChainLemmas

variable {K V : Type} [DecidableEq K]

theorem chainContains_eq_isSome (key : K) (c : List (K × V)) :
    chainContains key c = (chainFind key c).isSome := by
  induction c with
  | nil => simp [chainContains, chainFind]
  | cons p rest ih =>
    simp only [chainContains, chainFind]
    by_cases h : p.1 = key <;> simp [h, ih]

theorem chainFind_eq_none_iff (key : K) (c : List (K × V)) :
    chainFind key c = none ↔ key ∉ c.map Prod.fst := by
  induction c with
  | nil => simp [chainFind]
  | cons p rest ih =>
    simp only [chainFind, List.map_cons, List.mem_cons]
    by_cases h : p.1 = key
    · simp [h]
    · rw [if_neg h, ih]
      constructor
      · rintro hnot (hk | hk)
        · exact h hk.symm
        · exact hnot hk
      · intro hnot hk
        exact hnot (Or.inr hk)

theorem chainFind_append (key : K) (c d : List (K × V)) :
    chainFind key (c ++ d) =
      (match chainFind key c with
       | none => chainFind key d
       | some v => some v) := by
  induction c with
  | nil => simp [chainFind]
  | cons p rest ih =>
    simp only [List.cons_append, chainFind]
    by_cases h : p.1 = key <;> simp [h, ih]

theorem chainFind_chainInsert_self (key : K) (val : V) (rep : Bool)
    (c : List (K × V)) :
    chainFind key (chainInsert key val rep c).1 =
      (match chainFind key c with
       | none => some val
       | some w => if rep then some val else some w) := by
  induction c with
  | nil => simp [chainInsert, chainFind]
  | cons p rest ih =>
    simp only [chainInsert, chainFind]
    by_cases h : p.1 = key
    · by_cases hr : rep <;> simp [h, hr, chainFind]
    · simp only [h, if_false]
      simpa [chainFind, h] using ih

theorem chainFind_chainInsert_ne (key q : K) (val : V) (rep : Bool)
    (c : List (K × V)) (hne : q ≠ key) :
    chainFind q (chainInsert key val rep c).1 = chainFind q c := by
  have hkq : key ≠ q := Ne.symm hne
  induction c with
  | nil => simp [chainInsert, chainFind, hkq]
  | cons p rest ih =>
    by_cases h : p.1 = key
    · have hpq : p.1 ≠ q := h ▸ hkq
      by_cases hr : rep <;> simp [chainInsert, h, hr, chainFind, hpq, hkq]
    · by_cases hq : p.1 = q
      · simp [chainInsert, h, hq, hne, chainFind]
      · simp [chainInsert, h, hq, chainFind, ih]

theorem chainInsert_ret (key : K) (val : V) (rep : Bool) (c : List (K × V)) :
    (chainInsert key val rep c).2.1 = ((chainFind key c).isNone || rep) := by
  induction c with
  | nil => simp [chainInsert, chainFind]
  | cons p rest ih =>
    simp only [chainInsert, chainFind]
    by_cases h : p.1 = key
    · by_cases hr : rep <;> simp [h, hr]
    · simp [h, ih]

theorem chainInsert_appended (key : K) (val : V) (rep : Bool)
    (c : List (K × V)) :
    (chainInsert key val rep c).2.2 = (chainFind key c).isNone := by
  induction c with
  | nil => simp [chainInsert, chainFind]
  | cons p rest ih =>
    simp only [chainInsert, chainFind]
    by_cases h : p.1 = key
    · by_cases hr : rep <;> simp [h, hr]
    · simp [h, ih]

theorem chainInsert_keys (key : K) (val : V) (rep : Bool) (c : List (K × V)) :
    (chainInsert key val rep c).1.map Prod.fst =
      (if (chainFind key c).isNone then c.map Prod.fst ++ [key]
       else c.map Prod.fst) := by
  induction c with
  | nil => simp [chainInsert, chainFind]
  | cons p rest ih =>
    simp only [chainInsert, chainFind]
    by_cases h : p.1 = key
    · by_cases hr : rep <;> simp [h, hr]
    · by_cases hf : (chainFind key rest).isNone <;> simp [h, hf, ih]

theorem chainInsert_nodup (key : K) (val : V) (rep : Bool)
    (c : List (K × V)) (h : (c.map Prod.fst).Nodup) :
    ((chainInsert key val rep c).1.map Prod.fst).Nodup := by
  rw [chainInsert_keys]
  by_cases hf : (chainFind key c).isNone
  · have hk : key ∉ c.map Prod.fst := by
      rw [← chainFind_eq_none_iff (V := V)]
      exact Option.isNone_iff_eq_none.mp hf
    simp [hf, List.nodup_append, h, hk]
  · simp [hf, h]

theorem chainInsert_length (key : K) (val : V) (rep : Bool)
    (c : List (K × V)) :
    (chainInsert key val rep c).1.length =
      (if (chainFind key c).isNone then c.length + 1 else c.length) := by
  have := chainInsert_keys key val rep c
  have h1 : (chainInsert key val rep c).1.length =
      ((chainInsert key val rep c).1.map Prod.fst).length := by simp
  rw [h1, this]
  by_cases hf : (chainFind key c).isNone <;> simp [hf]

end MapChainLemmas

section MapChainLemmas2

variable {K V : Type} [DecidableEq K]

theorem chainErase_ret (key : K) (c : List (K × V)) :
    (chainErase key c).2 = (chainFind key c).isSome := by
  induction c with
  | nil => simp [chainErase, chainFind]
  | cons p rest ih =>
    simp only [chainErase, chainFind]
    by_cases h : p.1 = key <;> simp [h, ih]

theorem chainErase_of_none (key : K) (c : List (K × V))
    (h : chainFind key c = none) : chainErase key c = (c, false) := by
  induction c with
  | nil => simp [chainErase]
  | cons p rest ih =>
    simp only [chainFind] at h
    by_cases hp : p.1 = key
    · simp [hp] at h
    · simp only [if_neg hp] at h
      simp [chainErase, hp, ih h]

theorem chainErase_sublist (key : K) (c : List (K × V)) :
    (chainErase key c).1.Sublist c := by
  induction c with
  | nil => simp [chainErase]
  | cons p rest ih =>
    simp only [chainErase]
    by_cases h : p.1 = key
    · simp only [if_pos h]
      exact List.sublist_cons_self p rest
    · simp only [if_neg h]
      exact ih.cons₂ p

theorem chainErase_nodup (key : K) (c : List (K × V))
    (h : (c.map Prod.fst).Nodup) : ((chainErase key c).1.map Prod.fst).Nodup :=
  ((chainErase_sublist key c).map Prod.fst).nodup h

theorem chainFind_chainErase_self (key : K) (c : List (K × V))
    (h : (c.map Prod.fst).Nodup) :
    chainFind key (chainErase key c).1 = none := by
  induction c with
  | nil => simp [chainErase, chainFind]
  | cons p rest ih =>
    simp only [List.map_cons, List.nodup_cons] at h
    simp only [chainErase]
    by_cases hp : p.1 = key
    · simp only [if_pos hp]
      rw [chainFind_eq_none_iff]
      exact hp ▸ h.1
    · simp only [if_neg hp]
      simp [chainFind, hp, ih h.2]

theorem chainFind_chainErase_ne (key q : K) (c : List (K × V)) (hne : q ≠ key) :
    chainFind q (chainErase key c).1 = chainFind q c := by
  induction c with
  | nil => simp [chainErase, chainFind]
  | cons p rest ih =>
    simp only [chainErase]
    by_cases hp : p.1 = key
    · have hpq : p.1 ≠ q := hp ▸ Ne.symm hne
      simp [chainFind, hp, hpq, Ne.symm hne]
    · by_cases hq : p.1 = q <;> simp [chainFind, hp, hq, hne, ih]

theorem chainErase_length (key : K) (c : List (K × V)) :
    (chainErase key c).1.length =
      (if (chainFind key c).isSome then c.length - 1 else c.length) := by
  induction c with
  | nil => simp [chainErase, chainFind]
  | cons p rest ih =>
    simp only [chainErase, chainFind]
    by_cases h : p.1 = key
    · simp [h]
    · by_cases hf : (chainFind key rest).isSome
      · have hlen : 1 ≤ rest.length := by
          rcases rest with _ | _
          · simp [chainFind] at hf
          · simp
        simp [h, hf, ih]
        omega
      · simp [h, hf, ih]

theorem chainFastInsert_find_self (key : K) (val : V) (c : List (K × V)) :
    chainFind key (chainFastInsert key val c).1 = some val := by
  induction c with
  | nil => simp [chainFastInsert, chainFind]
  | cons p rest ih =>
    simp only [chainFastInsert]
    by_cases h : p.1 = key
    · simp [chainFind, h]
    · simp [chainFind, h, ih]

theorem chainFastInsert_find_ne (key q : K) (val : V) (c : List (K × V))
    (hne : q ≠ key) :
    chainFind q (chainFastInsert key val c).1 = chainFind q c := by
  have hkq : key ≠ q := Ne.symm hne
  induction c with
  | nil => simp [chainFastInsert, chainFind, hkq]
  | cons p rest ih =>
    simp only [chainFastInsert]
    by_cases h : p.1 = key
    · have hpq : p.1 ≠ q := h ▸ hkq
      simp [chainFind, h, hpq, hkq]
    · by_cases hq : p.1 = q <;> simp [chainFind, h, hq, hne, ih]

theorem chainFastInsert_appended (key : K) (val : V) (c : List (K × V)) :
    (chainFastInsert key val c).2 = (chainFind key c).isNone := by
  induction c with
  | nil => simp [chainFastInsert, chainFind]
  | cons p rest ih =>
    simp only [chainFastInsert, chainFind]
    by_cases h : p.1 = key <;> simp [h, ih]

theorem chainFastInsert_keys (key : K) (val : V) (c : List (K × V)) :
    (chainFastInsert key val c).1.map Prod.fst =
      (if (chainFind key c).isNone then c.map Prod.fst ++ [key]
       else c.map Prod.fst) := by
  induction c with
  | nil => simp [chainFastInsert, chainFind]
  | cons p rest ih =>
    simp only [chainFastInsert, chainFind]
    by_cases h : p.1 = key
    · simp [h]
    · by_cases hf : (chainFind key rest).isNone <;> simp [h, hf, ih]

theorem chainFastInsert_nodup (key : K) (val : V) (c : List (K × V))
    (h : (c.map Prod.fst).Nodup) :
    ((chainFastInsert key val c).1.map Prod.fst).Nodup := by
  rw [chainFastInsert_keys]
  by_cases hf : (chainFind key c).isNone
  · have hk : key ∉ c.map Prod.fst := by
      rw [← chainFind_eq_none_iff (V := V)]
      exact Option.isNone_iff_eq_none.mp hf
    simp [hf, List.nodup_append, h, hk]
  · simp [hf, h]

theorem chainFastInsert_length (key : K) (val : V) (c : List (K × V)) :
    (chainFastInsert key val c).1.length =
      (if (chainFind key c).isNone then c.length + 1 else c.length) := by
  have hkeys := chainFastInsert_keys key val c
  have h1 : (chainFastInsert key val c).1.length =
      ((chainFastInsert key val c).1.map Prod.fst).length := by simp
  rw [h1, hkeys]
  by_cases hf : (chainFind key c).isNone <;> simp [hf]

end MapChainLemmas2

section MapOpLemmas

variable {K V : Type} [DecidableEq K]

theorem mapIdx_lt (hash : K → Nat) (m : MapState K V) (key : K)
    (hn : 0 < m.buckets.length) : mapIdx hash m key < m.buckets.length :=
  Nat.mod_lt _ hn

theorem mapBucket_set {i : Nat} {c : List (K × V)} {cnt : Nat}
    (hash : K → Nat) (m : MapState K V) (q : K) (hi : i < m.buckets.length) :
    mapBucket hash ⟨m.buckets.set i c, cnt⟩ q =
      if mapIdx hash m q = i then c else mapBucket hash m q := by
  simp only [mapBucket, mapIdx, List.length_set]
  by_cases h : hash q % m.buckets.length = i
  · rw [if_pos h, h, List.getD_eq_getElem?_getD, List.getElem?_set_self hi]
    simp
  · rw [if_neg h, List.getD_eq_getElem?_getD, List.getElem?_set_ne (Ne.symm h),
      ← List.getD_eq_getElem?_getD]

theorem sum_map_length_set {A : Type} (l : List (List A)) (i : Nat)
    (c : List A) (hi : i < l.length) :
    ((l.set i c).map List.length).sum + (l.getD i []).length =
      (l.map List.length).sum + c.length := by
  induction l generalizing i with
  | nil => simp at hi
  | cons hd tl ih =>
    cases i with
    | zero => simp [List.set]; omega
    | succ j =>
      have hj : j < tl.length := by simpa using hi
      have := ih j hj
      simp only [List.set, List.map_cons, List.sum_cons, List.getD_cons_succ]
      omega

theorem chainFind_isSome_length_pos (key : K) (c : List (K × V))
    (h : (chainFind key c).isSome) : 0 < c.length := by
  cases c with
  | nil => simp [chainFind] at h
  | cons p rest => simp

theorem mapFind_mapInsert_self (hash : K → Nat) (m : MapState K V) (key : K)
    (val : V) (rep : Bool) (hn : 0 < m.buckets.length) :
    mapFind hash (mapInsert hash m key val rep).1 key =
      (match mapFind hash m key with
       | none => some val
       | some w => if rep then some val else some w) := by
  have hi := mapIdx_lt hash m key hn
  simp only [mapInsert, mapFind]
  rw [mapBucket_set hash m key hi, if_pos rfl]
  exact chainFind_chainInsert_self key val rep (mapBucket hash m key)

theorem mapFind_mapInsert_ne (hash : K → Nat) (m : MapState K V) (key q : K)
    (val : V) (rep : Bool) (hn : 0 < m.buckets.length) (hne : q ≠ key) :
    mapFind hash (mapInsert hash m key val rep).1 q = mapFind hash m q := by
  have hi := mapIdx_lt hash m key hn
  simp only [mapInsert, mapFind]
  rw [mapBucket_set hash m q hi]
  by_cases h : mapIdx hash m q = mapIdx hash m key
  · rw [if_pos h]
    have : mapBucket hash m q = mapBucket hash m key := by
      simp [mapBucket, mapIdx] at h ⊢
      rw [h]
    rw [this]
    exact chainFind_chainInsert_ne key q val rep (mapBucket hash m key) hne
  · rw [if_neg h]

theorem mapInsert_ret (hash : K → Nat) (m : MapState K V) (key : K) (val : V)
    (rep : Bool) :
    (mapInsert hash m key val rep).2 = ((mapFind hash m key).isNone || rep) := by
  simp [mapInsert, mapFind, chainInsert_ret]

theorem mapInsert_count (hash : K → Nat) (m : MapState K V) (key : K)
    (val : V) (rep : Bool) :
    (mapInsert hash m key val rep).1.count =
      (if (mapFind hash m key).isNone then incCount m.count else m.count) := by
  simp only [mapInsert, mapFind]
  rw [chainInsert_appended]

theorem mapInsert_buckets_length (hash : K → Nat) (m : MapState K V) (key : K)
    (val : V) (rep : Bool) :
    (mapInsert hash m key val rep).1.buckets.length = m.buckets.length := by
  simp [mapInsert]

theorem mapInsert_totalNodes (hash : K → Nat) (m : MapState K V) (key : K)
    (val : V) (rep : Bool) (hn : 0 < m.buckets.length) :
    totalNodes (mapInsert hash m key val rep).1 =
      (if (mapFind hash m key).isNone then totalNodes m + 1
       else totalNodes m) := by
  have hi := mapIdx_lt hash m key hn
  have hsum := sum_map_length_set m.buckets (mapIdx hash m key)
    (chainInsert key val rep (mapBucket hash m key)).1 hi
  have hlen := chainInsert_length key val rep (mapBucket hash m key)
  have hb : m.buckets.getD (mapIdx hash m key) [] = mapBucket hash m key := rfl
  rw [hb] at hsum
  simp only [totalNodes, mapInsert, mapFind] at *
  by_cases hf : (chainFind key (mapBucket hash m key)).isNone
  · rw [if_pos hf] at hlen ⊢
    omega
  · rw [if_neg hf] at hlen ⊢
    omega

theorem mapFind_mapErase_self (hash : K → Nat) (m : MapState K V) (key : K)
    (hn : 0 < m.buckets.length)
    (hnodup : ((mapBucket hash m key).map Prod.fst).Nodup) :
    mapFind hash (mapErase hash m key).1 key = none := by
  have hi := mapIdx_lt hash m key hn
  simp only [mapErase, mapFind]
  rw [mapBucket_set hash m key hi, if_pos rfl]
  exact chainFind_chainErase_self key (mapBucket hash m key) hnodup

theorem mapFind_mapErase_ne (hash : K → Nat) (m : MapState K V) (key q : K)
    (hn : 0 < m.buckets.length) (hne : q ≠ key) :
    mapFind hash (mapErase hash m key).1 q = mapFind hash m q := by
  have hi := mapIdx_lt hash m key hn
  simp only [mapErase, mapFind]
  rw [mapBucket_set hash m q hi]
  by_cases h : mapIdx hash m q = mapIdx hash m key
  · rw [if_pos h]
    have : mapBucket hash m q = mapBucket hash m key := by
      simp [mapBucket, mapIdx] at h ⊢
      rw [h]
    rw [this]
    exact chainFind_chainErase_ne key q (mapBucket hash m key) hne
  · rw [if_neg h]

theorem mapErase_ret (hash : K → Nat) (m : MapState K V) (key : K) :
    (mapErase hash m key).2 = (mapFind hash m key).isSome := by
  simp [mapErase, mapFind, chainErase_ret]

theorem mapErase_count (hash : K → Nat) (m : MapState K V) (key : K) :
    (mapErase hash m key).1.count =
      (if (mapFind hash m key).isSome then decCount m.count else m.count) := by
  simp [mapErase, mapFind, chainErase_ret]

theorem mapErase_buckets_length (hash : K → Nat) (m : MapState K V) (key : K) :
    (mapErase hash m key).1.buckets.length = m.buckets.length := by
  simp [mapErase]

theorem mapErase_totalNodes (hash : K → Nat) (m : MapState K V) (key : K)
    (hn : 0 < m.buckets.length) :
    totalNodes (mapErase hash m key).1 =
      (if (mapFind hash m key).isSome then totalNodes m - 1
       else totalNodes m) := by
  have hi := mapIdx_lt hash m key hn
  have hsum := sum_map_length_set m.buckets (mapIdx hash m key)
    (chainErase key (mapBucket hash m key)).1 hi
  have hlen := chainErase_length key (mapBucket hash m key)
  have hb : m.buckets.getD (mapIdx hash m key) [] = mapBucket hash m key := rfl
  rw [hb] at hsum
  simp only [totalNodes, mapErase, mapFind] at *
  by_cases hf : (chainFind key (mapBucket hash m key)).isSome
  · have hpos := chainFind_isSome_length_pos key (mapBucket hash m key) hf
    rw [if_pos hf] at hlen ⊢
    omega
  · rw [if_neg hf] at hlen ⊢
    omega

theorem mapErase_totalNodes_pos (hash : K → Nat) (m : MapState K V) (key : K)
    (hn : 0 < m.buckets.length) (hf : (mapFind hash m key).isSome) :
    0 < totalNodes m := by
  have hi := mapIdx_lt hash m key hn
  have hpos := chainFind_isSome_length_pos key (mapBucket hash m key) hf
  have : (mapBucket hash m key).length ≤ (m.buckets.map List.length).sum := by
    have hmem : mapBucket hash m key ∈ m.buckets := by
      have : mapBucket hash m key = m.buckets.getD (mapIdx hash m key) [] := rfl
      rw [this, List.getD_eq_getElem?_getD, List.getElem?_eq_getElem hi]
      exact List.getElem_mem hi
    exact List.le_sum_of_mem (List.mem_map_of_mem List.length hmem)
  simp only [totalNodes]
  omega

end MapOpLemmas

section MapFastInsertLemmas

variable {K V : Type} [DecidableEq K]

theorem mapFind_mapFastInsert_self (hash : K → Nat) (m : MapState K V)
    (key : K) (val : V) (hn : 0 < m.buckets.length) :
    mapFind hash (mapFastInsert hash m key val) key = some val := by
  have hi := mapIdx_lt hash m key hn
  simp only [mapFastInsert, mapFind]
  rw [mapBucket_set hash m key hi, if_pos rfl]
  exact chainFastInsert_find_self key val (mapBucket hash m key)

theorem mapFind_mapFastInsert_ne (hash : K → Nat) (m : MapState K V)
    (key q : K) (val : V) (hn : 0 < m.buckets.length) (hne : q ≠ key) :
    mapFind hash (mapFastInsert hash m key val) q = mapFind hash m q := by
  have hi := mapIdx_lt hash m key hn
  simp only [mapFastInsert, mapFind]
  rw [mapBucket_set hash m q hi]
  by_cases h : mapIdx hash m q = mapIdx hash m key
  · rw [if_pos h]
    have : mapBucket hash m q = mapBucket hash m key := by
      simp [mapBucket, mapIdx] at h ⊢
      rw [h]
    rw [this]
    exact chainFastInsert_find_ne key q val (mapBucket hash m key) hne
  · rw [if_neg h]

theorem mapFastInsert_count (hash : K → Nat) (m : MapState K V) (key : K)
    (val : V) :
    (mapFastInsert hash m key val).count =
      (if (mapFind hash m key).isNone then incCount m.count else m.count) := by
  simp only [mapFastInsert, mapFind]
  rw [chainFastInsert_appended]

theorem mapFastInsert_buckets_length (hash : K → Nat) (m : MapState K V)
    (key : K) (val : V) :
    (mapFastInsert hash m key val).buckets.length = m.buckets.length := by
  simp [mapFastInsert]

theorem mapFastInsert_totalNodes (hash : K → Nat) (m : MapState K V)
    (key : K) (val : V) (hn : 0 < m.buckets.length) :
    totalNodes (mapFastInsert hash m key val) =
      (if (mapFind hash m key).isNone then totalNodes m + 1
       else totalNodes m) := by
  have hi := mapIdx_lt hash m key hn
  have hsum := sum_map_length_set m.buckets (mapIdx hash m key)
    (chainFastInsert key val (mapBucket hash m key)).1 hi
  have hlen := chainFastInsert_length key val (mapBucket hash m key)
  have hb : m.buckets.getD (mapIdx hash m key) [] = mapBucket hash m key := rfl
  rw [hb] at hsum
  simp only [totalNodes, mapFastInsert, mapFind] at *
  by_cases hf : (chainFind key (mapBucket hash m key)).isNone
  · rw [if_pos hf] at hlen ⊢
    omega
  · rw [if_neg hf] at hlen ⊢
    omega

end MapFastInsertLemmas

section MapWF

variable {K V : Type} [DecidableEq K]

/-- First table invariant: within every bucket's chain, keys are distinct. -/
def ChainsNodup (m : MapState K V) : Prop :=
  ∀ c ∈ m.buckets, (c.map Prod.fst).Nodup

/-- Second table invariant: every node sits in the bucket its key hashes
to. -/
def BucketsIdx (hash : K → Nat) (m : MapState K V) : Prop :=
  ∀ i, i < m.buckets.length →
    ∀ p ∈ m.buckets.getD i [], hash p.1 % m.buckets.length = i

/-- Well-formedness of a map table (holds in every reachable quiescent
state). -/
def mapWF (hash : K → Nat) (m : MapState K V) : Prop :=
  ChainsNodup m ∧ BucketsIdx hash m

theorem mapWF_empty (hash : K → Nat) (n : Nat) :
    mapWF hash (mapEmpty K V n) := by
  constructor
  · intro c hc
    simp only [mapEmpty] at hc
    rw [List.eq_of_mem_replicate hc]
    simp
  · intro i hi p hp
    simp only [mapEmpty] at hp hi
    rw [List.getD_eq_getElem?_getD, List.getElem?_replicate] at hp
    simp only [List.length_replicate] at hi
    simp [if_pos hi] at hp

theorem mapBucket_nodup (hash : K → Nat) (m : MapState K V) (key : K)
    (hWF : ChainsNodup m) (hn : 0 < m.buckets.length) :
    ((mapBucket hash m key).map Prod.fst).Nodup := by
  have hi := mapIdx_lt hash m key hn
  apply hWF
  have : mapBucket hash m key = m.buckets.getD (mapIdx hash m key) [] := rfl
  rw [this, List.getD_eq_getElem?_getD, List.getElem?_eq_getElem hi]
  exact List.getElem_mem hi

theorem bucketsIdx_set (hash : K → Nat) (m : MapState K V) (key : K)
    (c : List (K × V)) (cnt : Nat) (hWF : BucketsIdx hash m)
    (hn : 0 < m.buckets.length)
    (hkeys : ∀ x ∈ c.map Prod.fst,
      x ∈ (mapBucket hash m key).map Prod.fst ∨ x = key) :
    BucketsIdx hash ⟨m.buckets.set (mapIdx hash m key) c, cnt⟩ := by
  intro i hi p hp
  simp only [List.length_set] at hi ⊢
  rw [List.getD_eq_getElem?_getD] at hp
  by_cases h : mapIdx hash m key = i
  · rw [← h] at hi hp ⊢
    rw [List.getElem?_set_self (by simpa using hi)] at hp
    simp only [Option.getD_some] at hp
    have := hkeys p.1 (List.mem_map_of_mem Prod.fst hp)
    rcases this with hx | hx
    · rcases List.mem_map.mp hx with ⟨q, hq, hqeq⟩
      have := hWF (mapIdx hash m key) (by simpa using hi) q hq
      rw [hqeq] at this
      exact this
    · rw [hx]
      rfl
  · rw [List.getElem?_set_ne h] at hp
    rw [← List.getD_eq_getElem?_getD] at hp
    exact hWF i hi p hp

theorem mapWF_mapInsert (hash : K → Nat) (m : MapState K V) (key : K)
    (val : V) (rep : Bool) (hWF : mapWF hash m) (hn : 0 < m.buckets.length) :
    mapWF hash (mapInsert hash m key val rep).1 := by
  obtain ⟨hnd, hidx⟩ := hWF
  constructor
  · intro c hc
    simp only [mapInsert] at hc
    rcases List.mem_or_eq_of_mem_set hc with hc | hc
    · exact hnd c hc
    · rw [hc]
      exact chainInsert_nodup key val rep (mapBucket hash m key)
        (mapBucket_nodup hash m key hnd hn)
  · simp only [mapInsert]
    apply bucketsIdx_set hash m key _ _ hidx hn
    intro x hx
    rw [chainInsert_keys] at hx
    by_cases hf : (chainFind key (mapBucket hash m key)).isNone
    · rw [if_pos hf] at hx
      rcases List.mem_append.mp hx with hx | hx
      · exact Or.inl hx
      · simp at hx
        exact Or.inr hx
    · rw [if_neg hf] at hx
      exact Or.inl hx

theorem mapWF_mapErase (hash : K → Nat) (m : MapState K V) (key : K)
    (hWF : mapWF hash m) (hn : 0 < m.buckets.length) :
    mapWF hash (mapErase hash m key).1 := by
  obtain ⟨hnd, hidx⟩ := hWF
  constructor
  · intro c hc
    simp only [mapErase] at hc
    rcases List.mem_or_eq_of_mem_set hc with hc | hc
    · exact hnd c hc
    · rw [hc]
      exact chainErase_nodup key (mapBucket hash m key)
        (mapBucket_nodup hash m key hnd hn)
  · simp only [mapErase]
    apply bucketsIdx_set hash m key _ _ hidx hn
    intro x hx
    exact Or.inl (((chainErase_sublist key (mapBucket hash m key)).map
      Prod.fst).mem hx)

theorem mapWF_mapFastInsert (hash : K → Nat) (m : MapState K V) (key : K)
    (val : V) (hWF : mapWF hash m) (hn : 0 < m.buckets.length) :
    mapWF hash (mapFastInsert hash m key val) := by
  obtain ⟨hnd, hidx⟩ := hWF
  constructor
  · intro c hc
    simp only [mapFastInsert] at hc
    rcases List.mem_or_eq_of_mem_set hc with hc | hc
    · exact hnd c hc
    · rw [hc]
      exact chainFastInsert_nodup key val (mapBucket hash m key)
        (mapBucket_nodup hash m key hnd hn)
  · simp only [mapFastInsert]
    apply bucketsIdx_set hash m key _ _ hidx hn
    intro x hx
    rw [chainFastInsert_keys] at hx
    by_cases hf : (chainFind key (mapBucket hash m key)).isNone
    · rw [if_pos hf] at hx
      rcases List.mem_append.mp hx with hx | hx
      · exact Or.inl hx
      · simp at hx
        exact Or.inr hx
    · rw [if_neg hf] at hx
      exact Or.inl hx

end MapWF

section MapResizeLemmas

variable {K V : Type} [DecidableEq K]

theorem mapContains_eq_isSome (hash : K → Nat) (m : MapState K V) (key : K) :
    mapContains hash m key = (mapFind hash m key).isSome := by
  simp [mapContains, mapFind, chainContains_eq_isSome]

theorem chainFind_some_mem (key : K) (c : List (K × V)) (v : V)
    (h : chainFind key c = some v) : (key, v) ∈ c := by
  induction c with
  | nil => simp [chainFind] at h
  | cons p rest ih =>
    by_cases hp : p.1 = key
    · simp only [chainFind, if_pos hp] at h
      have hv : p.2 = v := Option.some.inj h
      have hkv : (key, v) = p := by
        rw [← hp, ← hv]
      exact hkv ▸ List.mem_cons_self p rest
    · simp only [chainFind, if_neg hp] at h
      exact List.mem_cons_of_mem p (ih h)

theorem mem_chainFind_of_nodup (key : K) (c : List (K × V)) (v : V)
    (hnd : (c.map Prod.fst).Nodup) (hmem : (key, v) ∈ c) :
    chainFind key c = some v := by
  induction c with
  | nil => simp at hmem
  | cons p rest ih =>
    simp only [List.map_cons, List.nodup_cons] at hnd
    rcases List.mem_cons.mp hmem with hmem | hmem
    · rw [← hmem]
      simp [chainFind]
    · have hk : key ∈ rest.map Prod.fst :=
        List.mem_map.mpr ⟨(key, v), hmem, rfl⟩
      have hp : p.1 ≠ key := fun hc => hnd.1 (hc ▸ hk)
      simp only [chainFind, if_neg hp]
      exact ih hnd.2 hmem

theorem bucketsIdx_getElem (hash : K → Nat) (m : MapState K V)
    (hidx : BucketsIdx hash m) {i : Nat} (hi : i < m.buckets.length)
    {p : K × V} (hp : p ∈ m.buckets[i]) :
    hash p.1 % m.buckets.length = i := by
  apply hidx i hi
  rw [List.getD_eq_getElem?_getD, List.getElem?_eq_getElem hi]
  exact hp

theorem mapBucket_eq_getElem (hash : K → Nat) (m : MapState K V) (key : K)
    (hi : mapIdx hash m key < m.buckets.length) :
    mapBucket hash m key = m.buckets[mapIdx hash m key] := by
  rw [mapBucket, List.getD_eq_getElem?_getD, List.getElem?_eq_getElem hi]
  rfl

theorem mapFlatten_keys_nodup (hash : K → Nat) (m : MapState K V)
    (hWF : mapWF hash m) : (m.buckets.flatten.map Prod.fst).Nodup := by
  obtain ⟨hnd, hidx⟩ := hWF
  rw [List.map_flatten, List.nodup_flatten]
  constructor
  · intro l hl
    rcases List.mem_map.mp hl with ⟨c, hc, rfl⟩
    exact hnd c hc
  · rw [List.pairwise_iff_getElem]
    intro i j hi hj hij
    simp only [List.length_map] at hi hj
    intro x hxi hxj
    rw [List.getElem_map] at hxi hxj
    rcases List.mem_map.mp hxi with ⟨p, hp, hpx⟩
    rcases List.mem_map.mp hxj with ⟨q, hq, hqx⟩
    have h1 := bucketsIdx_getElem hash m hidx hi hp
    have h2 := bucketsIdx_getElem hash m hidx hj hq
    rw [hpx] at h1
    rw [hqx] at h2
    omega

theorem mapFind_eq_chainFind_flatten (hash : K → Nat) (m : MapState K V)
    (key : K) (hWF : mapWF hash m) (hn : 0 < m.buckets.length) :
    mapFind hash m key = chainFind key m.buckets.flatten := by
  have hflat := mapFlatten_keys_nodup hash m hWF
  rcases hfind : mapFind hash m key with _ | v
  · symm
    rw [chainFind_eq_none_iff]
    intro hk
    rcases List.mem_map.mp hk with ⟨p, hp, hpk⟩
    rcases List.mem_flatten.mp hp with ⟨c, hc, hpc⟩
    rcases List.mem_iff_getElem.mp hc with ⟨j, hj, hcj⟩
    have hij := bucketsIdx_getElem hash m hWF.2 hj (hcj ▸ hpc)
    rw [hpk] at hij
    have hcb : c = mapBucket hash m key := by
      rw [mapBucket_eq_getElem hash m key (mapIdx_lt hash m key hn), ← hcj]
      congr 1
      rw [mapIdx, ← hij]
    rw [mapFind, chainFind_eq_none_iff] at hfind
    exact hfind (hcb ▸ List.mem_map.mpr ⟨p, hpc, hpk⟩)
  · symm
    apply mem_chainFind_of_nodup key _ v hflat
    have hmem := chainFind_some_mem key _ v hfind
    apply List.mem_flatten.mpr
    refine ⟨mapBucket hash m key, ?_, hmem⟩
    rw [mapBucket_eq_getElem hash m key (mapIdx_lt hash m key hn)]
    exact List.getElem_mem (mapIdx_lt hash m key hn)

/-- The rebuild loop of `Map::Resize` as a fold over the flattened node
list. -/
def mapBuild (hash : K → Nat) (n : Nat) (es : List (K × V)) : MapState K V :=
  es.foldl (fun a p => mapFastInsert hash a p.1 p.2) (mapEmpty K V n)

theorem mapResize_eq_build (hash : K → Nat) (m : MapState K V) (n : Nat)
    (hne : n ≠ 0) : mapResize hash m n = mapBuild hash n m.buckets.flatten := by
  simp only [mapResize, if_neg hne, mapBuild]
  rw [List.foldl_flatten]

theorem mapBuild_spec (hash : K → Nat) (n : Nat) (hn : 0 < n)
    (es : List (K × V)) (hnd : (es.map Prod.fst).Nodup)
    (hlen : es.length < U64) :
    (∀ k, mapFind hash (mapBuild hash n es) k = chainFind k es) ∧
      (mapBuild hash n es).count = es.length ∧
      totalNodes (mapBuild hash n es) = es.length ∧
      mapWF hash (mapBuild hash n es) ∧
      (mapBuild hash n es).buckets.length = n := by
  induction es using List.reverseRecOn with
  | nil =>
    refine ⟨fun k => ?_, ?_, ?_, mapWF_empty hash n, by simp [mapBuild, mapEmpty]⟩
    · simp only [mapBuild, List.foldl_nil, chainFind]
      simp only [mapFind, mapBucket]
      have hb : (mapEmpty K V n).buckets.getD
          (mapIdx hash (mapEmpty K V n) k) [] = [] := by
        show (List.replicate n ([] : List (K × V))).getD _ [] = []
        rw [List.getD_eq_getElem?_getD, List.getElem?_replicate]
        by_cases h : mapIdx hash (mapEmpty K V n) k < n <;> simp [h]
      rw [hb, chainFind]
    · simp [mapBuild, mapEmpty]
    · simp [mapBuild, mapEmpty, totalNodes]
  | append_singleton l p ih =>
    have hkeys : (l ++ [p]).map Prod.fst = l.map Prod.fst ++ [p.1] := by simp
    rw [hkeys] at hnd
    have hndl : (l.map Prod.fst).Nodup := (List.nodup_append.mp hnd).1
    have hpn : p.1 ∉ l.map Prod.fst := by
      have hd := (List.nodup_append.mp hnd).2.2
      intro hc
      exact hd hc (List.mem_singleton_self p.1)
    have hlenl : l.length < U64 := by
      have : (l ++ [p]).length = l.length + 1 := by simp
      omega
    obtain ⟨ihfind, ihcount, ihtotal, ihWF, ihlen⟩ := ih hndl hlenl
    have hstep : mapBuild hash n (l ++ [p]) =
        mapFastInsert hash (mapBuild hash n l) p.1 p.2 := by
      simp [mapBuild, List.foldl_append]
    have hbn : 0 < (mapBuild hash n l).buckets.length := by
      rw [ihlen]
      exact hn
    have hfp : mapFind hash (mapBuild hash n l) p.1 = none := by
      rw [ihfind p.1, chainFind_eq_none_iff]
      exact hpn
    refine ⟨fun k => ?_, ?_, ?_, ?_, ?_⟩
    · rw [hstep]
      by_cases hk : k = p.1
      · rw [hk]
        rw [mapFind_mapFastInsert_self hash _ p.1 p.2 hbn, chainFind_append]
        rw [(chainFind_eq_none_iff p.1 l).mpr hpn]
        simp [chainFind]
      · rw [mapFind_mapFastInsert_ne hash _ p.1 k p.2 hbn hk, ihfind k,
          chainFind_append]
        rcases h : chainFind k l with _ | v
        · simp [chainFind, Ne.symm hk]
        · rfl
    · rw [hstep, mapFastInsert_count, hfp]
      simp only [Option.isNone_none, if_pos]
      rw [ihcount, incCount]
      have : (l ++ [p]).length = l.length + 1 := by simp
      rw [this]
      exact Nat.mod_eq_of_lt (this ▸ hlen)
    · rw [hstep, mapFastInsert_totalNodes hash _ p.1 p.2 hbn, hfp]
      simp only [Option.isNone_none, if_pos]
      rw [ihtotal]
      simp
    · rw [hstep]
      exact mapWF_mapFastInsert hash _ p.1 p.2 ihWF hbn
    · rw [hstep, mapFastInsert_buckets_length]
      exact ihlen

end MapResizeLemmas

section MapResizeTop

variable {K V : Type} [DecidableEq K]

theorem flatten_length_eq_totalNodes (m : MapState K V) :
    m.buckets.flatten.length = totalNodes m := by
  rw [List.length_flatten, totalNodes]

theorem mapResize_find (hash : K → Nat) (m : MapState K V) (n : Nat)
    (hWF : mapWF hash m) (hm : 0 < m.buckets.length) (hn : 0 < n)
    (hbound : totalNodes m < U64) (k : K) :
    mapFind hash (mapResize hash m n) k = mapFind hash m k := by
  rw [mapResize_eq_build hash m n (Nat.pos_iff_ne_zero.mp hn)]
  have hnd := mapFlatten_keys_nodup hash m hWF
  have hlen : m.buckets.flatten.length < U64 := by
    rw [flatten_length_eq_totalNodes]
    exact hbound
  rw [(mapBuild_spec hash n hn m.buckets.flatten hnd hlen).1 k]
  exact (mapFind_eq_chainFind_flatten hash m k hWF hm).symm

theorem mapResize_count (hash : K → Nat) (m : MapState K V) (n : Nat)
    (hWF : mapWF hash m) (hn : 0 < n) (hbound : totalNodes m < U64) :
    (mapResize hash m n).count = totalNodes m := by
  rw [mapResize_eq_build hash m n (Nat.pos_iff_ne_zero.mp hn)]
  have hnd := mapFlatten_keys_nodup hash m hWF
  have hlen : m.buckets.flatten.length < U64 := by
    rw [flatten_length_eq_totalNodes]
    exact hbound
  rw [(mapBuild_spec hash n hn m.buckets.flatten hnd hlen).2.1]
  exact flatten_length_eq_totalNodes m

theorem mapResize_totalNodes (hash : K → Nat) (m : MapState K V) (n : Nat)
    (hWF : mapWF hash m) (hn : 0 < n) (hbound : totalNodes m < U64) :
    totalNodes (mapResize hash m n) = totalNodes m := by
  rw [mapResize_eq_build hash m n (Nat.pos_iff_ne_zero.mp hn)]
  have hnd := mapFlatten_keys_nodup hash m hWF
  have hlen : m.buckets.flatten.length < U64 := by
    rw [flatten_length_eq_totalNodes]
    exact hbound
  rw [(mapBuild_spec hash n hn m.buckets.flatten hnd hlen).2.2.1]
  exact flatten_length_eq_totalNodes m

theorem mapResize_buckets_length (hash : K → Nat) (m : MapState K V) (n : Nat)
    (hWF : mapWF hash m) (hn : 0 < n) (hbound : totalNodes m < U64) :
    (mapResize hash m n).buckets.length = n := by
  rw [mapResize_eq_build hash m n (Nat.pos_iff_ne_zero.mp hn)]
  have hnd := mapFlatten_keys_nodup hash m hWF
  have hlen : m.buckets.flatten.length < U64 := by
    rw [flatten_length_eq_totalNodes]
    exact hbound
  exact (mapBuild_spec hash n hn m.buckets.flatten hnd hlen).2.2.2.2

theorem mapResize_wf (hash : K → Nat) (m : MapState K V) (n : Nat)
    (hWF : mapWF hash m) (hn : 0 < n) (hbound : totalNodes m < U64) :
    mapWF hash (mapResize hash m n) := by
  rw [mapResize_eq_build hash m n (Nat.pos_iff_ne_zero.mp hn)]
  have hnd := mapFlatten_keys_nodup hash m hWF
  have hlen : m.buckets.flatten.length < U64 := by
    rw [flatten_length_eq_totalNodes]
    exact hbound
  exact (mapBuild_spec hash n hn m.buckets.flatten hnd hlen).2.2.2.1

theorem mapResize_zero (hash : K → Nat) (m : MapState K V) :
    mapResize hash m 0 = m := by
  simp [mapResize]

end MapResizeTop

section SetChainLemmas

variable {V : Type} [DecidableEq V]

theorem setChainContains_eq_mem (x : V) (c : List V) :
    setChainContains x c = true ↔ x ∈ c := by
  induction c with
  | nil => simp [setChainContains]
  | cons v rest ih =>
    simp only [setChainContains, List.mem_cons]
    by_cases h : v = x
    · simp [h]
    · rw [if_neg h, ih]
      constructor
      · intro hm
        exact Or.inr hm
      · rintro (hm | hm)
        · exact absurd hm.symm h
        · exact hm

theorem setChainContains_append (x : V) (c d : List V) :
    setChainContains x (c ++ d) =
      (setChainContains x c || setChainContains x d) := by
  induction c with
  | nil => simp [setChainContains]
  | cons v rest ih =>
    simp only [List.cons_append, setChainContains]
    by_cases h : v = x <;> simp [h, ih]

theorem setChainInsert_eq (x : V) (c : List V) :
    setChainInsert x c =
      (if setChainContains x c then c else c ++ [x],
       !setChainContains x c) := by
  induction c with
  | nil => simp [setChainInsert, setChainContains]
  | cons v rest ih =>
    simp only [setChainInsert, setChainContains]
    by_cases h : v = x
    · simp [h]
    · by_cases hc : setChainContains x rest <;> simp [h, hc, ih]

theorem setChainFastInsert_eq_insert (x : V) (c : List V) :
    setChainFastInsert x c = setChainInsert x c := by
  induction c with
  | nil => simp [setChainFastInsert, setChainInsert]
  | cons v rest ih =>
    simp only [setChainFastInsert, setChainInsert]
    by_cases h : v = x <;> simp [h, ih]

theorem setChainInsert_nodup (x : V) (c : List V) (h : c.Nodup) :
    (setChainInsert x c).1.Nodup := by
  rw [setChainInsert_eq]
  by_cases hc : setChainContains x c
  · simp [hc, h]
  · have hx : x ∉ c := fun hm =>
      hc ((setChainContains_eq_mem x c).mpr hm)
    simp [hc, List.nodup_append, h, hx]

theorem setChainInsert_length (x : V) (c : List V) :
    (setChainInsert x c).1.length =
      (if setChainContains x c then c.length else c.length + 1) := by
  rw [setChainInsert_eq]
  by_cases hc : setChainContains x c <;> simp [hc]

theorem setChainErase_ret (x : V) (c : List V) :
    (setChainErase x c).2 = setChainContains x c := by
  induction c with
  | nil => simp [setChainErase, setChainContains]
  | cons v rest ih =>
    simp only [setChainErase, setChainContains]
    by_cases h : v = x <;> simp [h, ih]

theorem setChainErase_of_not_mem (x : V) (c : List V)
    (h : setChainContains x c = false) : setChainErase x c = (c, false) := by
  induction c with
  | nil => simp [setChainErase]
  | cons v rest ih =>
    simp only [setChainContains] at h
    by_cases hv : v = x
    · simp [hv] at h
    · simp only [if_neg hv] at h
      simp [setChainErase, hv, ih h]

theorem setChainErase_sublist (x : V) (c : List V) :
    (setChainErase x c).1.Sublist c := by
  induction c with
  | nil => simp [setChainErase]
  | cons v rest ih =>
    simp only [setChainErase]
    by_cases h : v = x
    · simp only [if_pos h]
      exact List.sublist_cons_self v rest
    · simp only [if_neg h]
      exact ih.cons₂ v

theorem setChainErase_nodup (x : V) (c : List V) (h : c.Nodup) :
    (setChainErase x c).1.Nodup :=
  (setChainErase_sublist x c).nodup h

theorem setChainContains_erase_self (x : V) (c : List V) (h : c.Nodup) :
    setChainContains x (setChainErase x c).1 = false := by
  induction c with
  | nil => simp [setChainErase, setChainContains]
  | cons v rest ih =>
    simp only [List.nodup_cons] at h
    simp only [setChainErase]
    by_cases hv : v = x
    · simp only [if_pos hv]
      rw [Bool.eq_false_iff]
      intro hc
      exact h.1 (hv ▸ (setChainContains_eq_mem x rest).mp hc)
    · simp only [if_neg hv]
      simp [setChainContains, hv, ih h.2]

theorem setChainContains_erase_ne (x q : V) (c : List V) (hne : q ≠ x) :
    setChainContains q (setChainErase x c).1 = setChainContains q c := by
  induction c with
  | nil => simp [setChainErase]
  | cons v rest ih =>
    simp only [setChainErase]
    by_cases hv : v = x
    · have hvq : v ≠ q := hv ▸ Ne.symm hne
      simp only [if_pos hv]
      show setChainContains q rest = setChainContains q (v :: rest)
      simp [setChainContains, hvq]
    · by_cases hq : v = q <;> simp [setChainContains, hv, hq, hne, ih]

theorem setChainErase_length (x : V) (c : List V) :
    (setChainErase x c).1.length =
      (if setChainContains x c then c.length - 1 else c.length) := by
  induction c with
  | nil => simp [setChainErase, setChainContains]
  | cons v rest ih =>
    simp only [setChainErase, setChainContains]
    by_cases h : v = x
    · simp [h]
    · by_cases hc : setChainContains x rest
      · have hlen : 1 ≤ rest.length := by
          rcases rest with _ | _
          · simp [setChainContains] at hc
          · simp
        simp [h, hc, ih]
        omega
      · simp [h, hc, ih]

theorem setChainContains_length_pos (x : V) (c : List V)
    (h : setChainContains x c = true) : 0 < c.length := by
  cases c with
  | nil => simp [setChainContains] at h
  | cons v rest => simp

end SetChainLemmas

section SetOpLemmas

variable {V : Type} [DecidableEq V]

theorem set_getD_self {A : Type} (l : List A) (i : Nat) (d : A)
    (hi : i < l.length) : l.set i (l.getD i d) = l := by
  apply List.ext_getElem?
  intro n
  by_cases h : i = n
  · subst h
    rw [List.getElem?_set_self hi, List.getD_eq_getElem?_getD,
      List.getElem?_eq_getElem hi]
    rfl
  · rw [List.getElem?_set_ne h]

theorem setChainContains_insert_self (x : V) (c : List V) :
    setChainContains x (setChainInsert x c).1 = true := by
  rw [setChainInsert_eq]
  by_cases hc : setChainContains x c
  · rw [if_pos hc]
    exact hc
  · simp only [hc, Bool.false_eq_true, if_false]
    rw [setChainContains_append]
    simp [setChainContains]

theorem setChainContains_insert_ne (x q : V) (c : List V) (hne : q ≠ x) :
    setChainContains q (setChainInsert x c).1 = setChainContains q c := by
  rw [setChainInsert_eq]
  by_cases hc : setChainContains x c
  · simp [hc]
  · simp only [hc, Bool.false_eq_true, if_false]
    rw [setChainContains_append]
    simp [setChainContains, Ne.symm hne]

theorem setIdx_lt (hash : V → Nat) (s : SetState V) (x : V)
    (hn : 0 < s.buckets.length) : setIdx hash s x < s.buckets.length :=
  Nat.mod_lt _ hn

theorem setBucket_set {i : Nat} {c : List V} {cnt : Nat}
    (hash : V → Nat) (s : SetState V) (q : V) (hi : i < s.buckets.length) :
    setBucket hash ⟨s.buckets.set i c, cnt⟩ q =
      if setIdx hash s q = i then c else setBucket hash s q := by
  simp only [setBucket, setIdx, List.length_set]
  by_cases h : hash q % s.buckets.length = i
  · rw [if_pos h, h, List.getD_eq_getElem?_getD, List.getElem?_set_self hi]
    simp
  · rw [if_neg h, List.getD_eq_getElem?_getD, List.getElem?_set_ne (Ne.symm h),
      ← List.getD_eq_getElem?_getD]

theorem setBucket_nodup (hash : V → Nat) (s : SetState V) (x : V)
    (hnd : ∀ c ∈ s.buckets, c.Nodup) (hn : 0 < s.buckets.length) :
    (setBucket hash s x).Nodup := by
  have hi := setIdx_lt hash s x hn
  apply hnd
  have hb : setBucket hash s x = s.buckets.getD (setIdx hash s x) [] := rfl
  rw [hb, List.getD_eq_getElem?_getD, List.getElem?_eq_getElem hi]
  exact List.getElem_mem hi

theorem setContains_setInsert_self (hash : V → Nat) (s : SetState V) (x : V)
    (hn : 0 < s.buckets.length) :
    setContains hash (setInsert hash s x) x = true := by
  have hi := setIdx_lt hash s x hn
  simp only [setInsert, setContains]
  rw [setBucket_set hash s x hi, if_pos rfl]
  exact setChainContains_insert_self x (setBucket hash s x)

theorem setContains_setInsert_ne (hash : V → Nat) (s : SetState V) (x q : V)
    (hn : 0 < s.buckets.length) (hne : q ≠ x) :
    setContains hash (setInsert hash s x) q = setContains hash s q := by
  have hi := setIdx_lt hash s x hn
  simp only [setInsert, setContains]
  rw [setBucket_set hash s q hi]
  by_cases h : setIdx hash s q = setIdx hash s x
  · rw [if_pos h]
    have hb : setBucket hash s q = setBucket hash s x := by
      simp [setBucket, setIdx] at h ⊢
      rw [h]
    rw [hb]
    exact setChainContains_insert_ne x q (setBucket hash s x) hne
  · rw [if_neg h]

theorem setInsert_noop (hash : V → Nat) (s : SetState V) (x : V)
    (hn : 0 < s.buckets.length) (hc : setContains hash s x = true) :
    setInsert hash s x = s := by
  have hi := setIdx_lt hash s x hn
  simp only [setInsert, setChainInsert_eq, setContains] at *
  rw [hc]
  simp only [if_pos, Bool.not_true, Bool.false_eq_true, if_false]
  have hb : s.buckets.set (setIdx hash s x) (setBucket hash s x) = s.buckets :=
    set_getD_self s.buckets (setIdx hash s x) [] hi
  rw [hb]

theorem setInsert_count (hash : V → Nat) (s : SetState V) (x : V) :
    (setInsert hash s x).count =
      (if setContains hash s x then s.count else incCount s.count) := by
  simp only [setInsert, setChainInsert_eq, setContains]
  by_cases hc : setChainContains x (setBucket hash s x) <;> simp [hc]

theorem setInsert_buckets_length (hash : V → Nat) (s : SetState V) (x : V) :
    (setInsert hash s x).buckets.length = s.buckets.length := by
  simp [setInsert]

theorem setInsert_totalNodes (hash : V → Nat) (s : SetState V) (x : V)
    (hn : 0 < s.buckets.length) :
    setTotalNodes (setInsert hash s x) =
      (if setContains hash s x then setTotalNodes s
       else setTotalNodes s + 1) := by
  have hi := setIdx_lt hash s x hn
  have hsum := sum_map_length_set s.buckets (setIdx hash s x)
    (setChainInsert x (setBucket hash s x)).1 hi
  have hlen := setChainInsert_length x (setBucket hash s x)
  have hb : s.buckets.getD (setIdx hash s x) [] = setBucket hash s x := rfl
  rw [hb] at hsum
  simp only [setTotalNodes, setInsert, setContains] at *
  by_cases hc : setChainContains x (setBucket hash s x)
  · rw [if_pos hc] at hlen ⊢
    omega
  · rw [if_neg hc] at hlen ⊢
    omega

theorem setFastInsert_eq_insert (hash : V → Nat) (s : SetState V) (x : V) :
    setFastInsert hash s x = setInsert hash s x := by
  simp [setFastInsert, setInsert, setChainFastInsert_eq_insert]

theorem setErase_ret (hash : V → Nat) (s : SetState V) (x : V) :
    (setErase hash s x).2 = setContains hash s x := by
  simp [setErase, setContains, setChainErase_ret]

theorem setContains_setErase_self (hash : V → Nat) (s : SetState V) (x : V)
    (hn : 0 < s.buckets.length) (hnd : (setBucket hash s x).Nodup) :
    setContains hash (setErase hash s x).1 x = false := by
  have hi := setIdx_lt hash s x hn
  simp only [setErase, setContains]
  rw [setBucket_set hash s x hi, if_pos rfl]
  exact setChainContains_erase_self x (setBucket hash s x) hnd

theorem setContains_setErase_ne (hash : V → Nat) (s : SetState V) (x q : V)
    (hn : 0 < s.buckets.length) (hne : q ≠ x) :
    setContains hash (setErase hash s x).1 q = setContains hash s q := by
  have hi := setIdx_lt hash s x hn
  simp only [setErase, setContains]
  rw [setBucket_set hash s q hi]
  by_cases h : setIdx hash s q = setIdx hash s x
  · rw [if_pos h]
    have hb : setBucket hash s q = setBucket hash s x := by
      simp [setBucket, setIdx] at h ⊢
      rw [h]
    rw [hb]
    exact setChainContains_erase_ne x q (setBucket hash s x) hne
  · rw [if_neg h]

theorem setErase_count (hash : V → Nat) (s : SetState V) (x : V) :
    (setErase hash s x).1.count =
      (if setContains hash s x then decCount s.count else s.count) := by
  simp only [setErase, setContains]
  rw [setChainErase_ret]

theorem setErase_buckets_length (hash : V → Nat) (s : SetState V) (x : V) :
    (setErase hash s x).1.buckets.length = s.buckets.length := by
  simp [setErase]

theorem setErase_totalNodes (hash : V → Nat) (s : SetState V) (x : V)
    (hn : 0 < s.buckets.length) :
    setTotalNodes (setErase hash s x).1 =
      (if setContains hash s x then setTotalNodes s - 1
       else setTotalNodes s) := by
  have hi := setIdx_lt hash s x hn
  have hsum := sum_map_length_set s.buckets (setIdx hash s x)
    (setChainErase x (setBucket hash s x)).1 hi
  have hlen := setChainErase_length x (setBucket hash s x)
  have hb : s.buckets.getD (setIdx hash s x) [] = setBucket hash s x := rfl
  rw [hb] at hsum
  simp only [setTotalNodes, setErase, setContains] at *
  by_cases hc : setChainContains x (setBucket hash s x)
  · have hpos := setChainContains_length_pos x (setBucket hash s x) hc
    rw [if_pos hc] at hlen ⊢
    omega
  · rw [if_neg hc] at hlen ⊢
    omega

theorem setErase_totalNodes_pos (hash : V → Nat) (s : SetState V) (x : V)
    (hn : 0 < s.buckets.length) (hc : setContains hash s x = true) :
    0 < setTotalNodes s := by
  have hi := setIdx_lt hash s x hn
  have hpos := setChainContains_length_pos x (setBucket hash s x) hc
  have hle : (setBucket hash s x).length ≤ (s.buckets.map List.length).sum := by
    have hmem : setBucket hash s x ∈ s.buckets := by
      have hb : setBucket hash s x = s.buckets.getD (setIdx hash s x) [] := rfl
      rw [hb, List.getD_eq_getElem?_getD, List.getElem?_eq_getElem hi]
      exact List.getElem_mem hi
    exact List.le_sum_of_mem (List.mem_map_of_mem List.length hmem)
  simp only [setTotalNodes]
  omega

end SetOpLemmas

section SetWF

variable {V : Type} [DecidableEq V]

/-- Set invariant: within every bucket's chain, values are distinct. -/
def SetChainsNodup (s : SetState V) : Prop :=
  ∀ c ∈ s.buckets, c.Nodup

/-- Set invariant: every node sits in the bucket its value hashes to. -/
def SetBucketsIdx (hash : V → Nat) (s : SetState V) : Prop :=
  ∀ i, i < s.buckets.length →
    ∀ v ∈ s.buckets.getD i [], hash v % s.buckets.length = i

/-- Well-formedness of a set table. -/
def setWF (hash : V → Nat) (s : SetState V) : Prop :=
  SetChainsNodup s ∧ SetBucketsIdx hash s

theorem setWF_empty (hash : V → Nat) (n : Nat) : setWF hash (setEmpty V n) := by
  constructor
  · intro c hc
    simp only [setEmpty] at hc
    rw [List.eq_of_mem_replicate hc]
    simp
  · intro i hi v hv
    simp only [setEmpty] at hv hi
    rw [List.getD_eq_getElem?_getD, List.getElem?_replicate] at hv
    simp only [List.length_replicate] at hi
    simp [if_pos hi] at hv

theorem setBucketsIdx_set (hash : V → Nat) (s : SetState V) (x : V)
    (c : List V) (cnt : Nat) (hidx : SetBucketsIdx hash s)
    (hvals : ∀ y ∈ c, y ∈ setBucket hash s x ∨ y = x) :
    SetBucketsIdx hash ⟨s.buckets.set (setIdx hash s x) c, cnt⟩ := by
  intro i hi v hv
  simp only [List.length_set] at hi ⊢
  rw [List.getD_eq_getElem?_getD] at hv
  by_cases h : setIdx hash s x = i
  · rw [← h] at hi hv ⊢
    rw [List.getElem?_set_self (by simpa using hi)] at hv
    simp only [Option.getD_some] at hv
    rcases hvals v hv with hy | hy
    · exact hidx (setIdx hash s x) (by simpa using hi) v hy
    · rw [hy]
      rfl
  · rw [List.getElem?_set_ne h] at hv
    rw [← List.getD_eq_getElem?_getD] at hv
    exact hidx i hi v hv

theorem setWF_setInsert (hash : V → Nat) (s : SetState V) (x : V)
    (hWF : setWF hash s) (hn : 0 < s.buckets.length) :
    setWF hash (setInsert hash s x) := by
  obtain ⟨hnd, hidx⟩ := hWF
  constructor
  · intro c hc
    simp only [setInsert] at hc
    rcases List.mem_or_eq_of_mem_set hc with hc | hc
    · exact hnd c hc
    · rw [hc]
      exact setChainInsert_nodup x (setBucket hash s x)
        (setBucket_nodup hash s x hnd hn)
  · simp only [setInsert]
    apply setBucketsIdx_set hash s x _ _ hidx
    intro y hy
    rw [setChainInsert_eq] at hy
    by_cases hc : setChainContains x (setBucket hash s x)
    · rw [if_pos hc] at hy
      exact Or.inl hy
    · simp only [hc, Bool.false_eq_true, if_false] at hy
      rcases List.mem_append.mp hy with hy | hy
      · exact Or.inl hy
      · simp at hy
        exact Or.inr hy

theorem setWF_setErase (hash : V → Nat) (s : SetState V) (x : V)
    (hWF : setWF hash s) (hn : 0 < s.buckets.length) :
    setWF hash (setErase hash s x).1 := by
  obtain ⟨hnd, hidx⟩ := hWF
  constructor
  · intro c hc
    simp only [setErase] at hc
    rcases List.mem_or_eq_of_mem_set hc with hc | hc
    · exact hnd c hc
    · rw [hc]
      exact setChainErase_nodup x (setBucket hash s x)
        (setBucket_nodup hash s x hnd hn)
  · simp only [setErase]
    apply setBucketsIdx_set hash s x _ _ hidx
    intro y hy
    exact Or.inl ((setChainErase_sublist x (setBucket hash s x)).mem hy)

theorem setWF_setFastInsert (hash : V → Nat) (s : SetState V) (x : V)
    (hWF : setWF hash s) (hn : 0 < s.buckets.length) :
    setWF hash (setFastInsert hash s x) := by
  rw [setFastInsert_eq_insert]
  exact setWF_setInsert hash s x hWF hn

theorem setBucketsIdx_getElem (hash : V → Nat) (s : SetState V)
    (hidx : SetBucketsIdx hash s) {i : Nat} (hi : i < s.buckets.length)
    {v : V} (hv : v ∈ s.buckets[i]) :
    hash v % s.buckets.length = i := by
  apply hidx i hi
  rw [List.getD_eq_getElem?_getD, List.getElem?_eq_getElem hi]
  exact hv

theorem setBucket_eq_getElem (hash : V → Nat) (s : SetState V) (x : V)
    (hi : setIdx hash s x < s.buckets.length) :
    setBucket hash s x = s.buckets[setIdx hash s x] := by
  rw [setBucket, List.getD_eq_getElem?_getD, List.getElem?_eq_getElem hi]
  rfl

theorem setFlatten_nodup (hash : V → Nat) (s : SetState V)
    (hWF : setWF hash s) : s.buckets.flatten.Nodup := by
  obtain ⟨hnd, hidx⟩ := hWF
  rw [List.nodup_flatten]
  refine ⟨hnd, ?_⟩
  rw [List.pairwise_iff_getElem]
  intro i j hi hj hij
  intro v hvi hvj
  have h1 := setBucketsIdx_getElem hash s hidx hi hvi
  have h2 := setBucketsIdx_getElem hash s hidx hj hvj
  omega

theorem setContains_eq_chainContains_flatten (hash : V → Nat) (s : SetState V)
    (x : V) (hWF : setWF hash s) (hn : 0 < s.buckets.length) :
    setContains hash s x = setChainContains x s.buckets.flatten := by
  rcases hc : setContains hash s x with _ | _
  · symm
    rw [Bool.eq_false_iff]
    intro hm
    have hmem := (setChainContains_eq_mem x _).mp hm
    rcases List.mem_flatten.mp hmem with ⟨c, hcb, hxc⟩
    rcases List.mem_iff_getElem.mp hcb with ⟨j, hj, hcj⟩
    have hij := setBucketsIdx_getElem hash s hWF.2 hj (hcj ▸ hxc)
    have hcb2 : c = setBucket hash s x := by
      rw [setBucket_eq_getElem hash s x (setIdx_lt hash s x hn), ← hcj]
      congr 1
      rw [setIdx, ← hij]
    rw [setContains, Bool.eq_false_iff] at hc
    exact hc ((setChainContains_eq_mem x _).mpr (hcb2 ▸ hxc))
  · symm
    rw [setContains] at hc
    apply (setChainContains_eq_mem x _).mpr
    apply List.mem_flatten.mpr
    refine ⟨setBucket hash s x, ?_, (setChainContains_eq_mem x _).mp hc⟩
    rw [setBucket_eq_getElem hash s x (setIdx_lt hash s x hn)]
    exact List.getElem_mem (setIdx_lt hash s x hn)

end SetWF

section SetResizeLemmas

variable {V : Type} [DecidableEq V]

/-- The rebuild loop of `Set::Resize` as a fold over the flattened node
list. -/
def setBuild (hash : V → Nat) (n : Nat) (es : List V) : SetState V :=
  es.foldl (fun a x => setFastInsert hash a x) (setEmpty V n)

theorem setResize_eq_build (hash : V → Nat) (s : SetState V) (n : Nat)
    (hne : n ≠ 0) : setResize hash s n = setBuild hash n s.buckets.flatten := by
  simp only [setResize, if_neg hne, setBuild]
  rw [List.foldl_flatten]

theorem setFlatten_length_eq_totalNodes (s : SetState V) :
    s.buckets.flatten.length = setTotalNodes s := by
  rw [List.length_flatten, setTotalNodes]

theorem setBuild_spec (hash : V → Nat) (n : Nat) (hn : 0 < n)
    (es : List V) (hnd : es.Nodup) (hlen : es.length < U64) :
    (∀ x, setContains hash (setBuild hash n es) x = setChainContains x es) ∧
      (setBuild hash n es).count = es.length ∧
      setTotalNodes (setBuild hash n es) = es.length ∧
      setWF hash (setBuild hash n es) ∧
      (setBuild hash n es).buckets.length = n := by
  induction es using List.reverseRecOn with
  | nil =>
    refine ⟨fun x => ?_, ?_, ?_, setWF_empty hash n, by simp [setBuild, setEmpty]⟩
    · simp only [setBuild, List.foldl_nil, setChainContains]
      simp only [setContains, setBucket]
      have hb : (setEmpty V n).buckets.getD
          (setIdx hash (setEmpty V n) x) [] = [] := by
        show (List.replicate n ([] : List V)).getD _ [] = []
        rw [List.getD_eq_getElem?_getD, List.getElem?_replicate]
        by_cases h : setIdx hash (setEmpty V n) x < n <;> simp [h]
      rw [hb, setChainContains]
    · simp [setBuild, setEmpty]
    · simp [setBuild, setEmpty, setTotalNodes]
  | append_singleton l x ih =>
    have hndl : l.Nodup := (List.nodup_append.mp hnd).1
    have hxn : x ∉ l := by
      have hd := (List.nodup_append.mp hnd).2.2
      intro hc
      exact hd hc (List.mem_singleton_self x)
    have hlenl : l.length < U64 := by
      have : (l ++ [x]).length = l.length + 1 := by simp
      omega
    obtain ⟨ihcon, ihcount, ihtotal, ihWF, ihlen⟩ := ih hndl hlenl
    have hstep : setBuild hash n (l ++ [x]) =
        setFastInsert hash (setBuild hash n l) x := by
      simp [setBuild, List.foldl_append]
    have hbn : 0 < (setBuild hash n l).buckets.length := by
      rw [ihlen]
      exact hn
    have hfx : setContains hash (setBuild hash n l) x = false := by
      rw [ihcon x, Bool.eq_false_iff]
      intro hc
      exact hxn ((setChainContains_eq_mem x l).mp hc)
    refine ⟨fun q => ?_, ?_, ?_, ?_, ?_⟩
    · rw [hstep, setFastInsert_eq_insert]
      by_cases hq : q = x
      · rw [hq, setContains_setInsert_self hash _ x hbn,
          setChainContains_append]
        simp [setChainContains]
      · rw [setContains_setInsert_ne hash _ x q hbn hq, ihcon q,
          setChainContains_append]
        simp [setChainContains, Ne.symm hq]
    · rw [hstep, setFastInsert_eq_insert, setInsert_count, hfx]
      simp only [Bool.false_eq_true, if_false]
      rw [ihcount, incCount]
      have hl1 : (l ++ [x]).length = l.length + 1 := by simp
      rw [hl1]
      exact Nat.mod_eq_of_lt (hl1 ▸ hlen)
    · rw [hstep, setFastInsert_eq_insert,
        setInsert_totalNodes hash _ x hbn, hfx]
      simp only [Bool.false_eq_true, if_false]
      rw [ihtotal]
      simp
    · rw [hstep]
      exact setWF_setFastInsert hash _ x ihWF hbn
    · rw [hstep, setFastInsert_eq_insert, setInsert_buckets_length]
      exact ihlen

theorem setResize_contains (hash : V → Nat) (s : SetState V) (n : Nat)
    (hWF : setWF hash s) (hm : 0 < s.buckets.length) (hn : 0 < n)
    (hbound : setTotalNodes s < U64) (x : V) :
    setContains hash (setResize hash s n) x = setContains hash s x := by
  rw [setResize_eq_build hash s n (Nat.pos_iff_ne_zero.mp hn)]
  have hnd := setFlatten_nodup hash s hWF
  have hlen : s.buckets.flatten.length < U64 := by
    rw [setFlatten_length_eq_totalNodes]
    exact hbound
  rw [(setBuild_spec hash n hn s.buckets.flatten hnd hlen).1 x]
  exact (setContains_eq_chainContains_flatten hash s x hWF hm).symm

theorem setResize_count (hash : V → Nat) (s : SetState V) (n : Nat)
    (hWF : setWF hash s) (hn : 0 < n) (hbound : setTotalNodes s < U64) :
    (setResize hash s n).count = setTotalNodes s := by
  rw [setResize_eq_build hash s n (Nat.pos_iff_ne_zero.mp hn)]
  have hnd := setFlatten_nodup hash s hWF
  have hlen : s.buckets.flatten.length < U64 := by
    rw [setFlatten_length_eq_totalNodes]
    exact hbound
  rw [(setBuild_spec hash n hn s.buckets.flatten hnd hlen).2.1]
  exact setFlatten_length_eq_totalNodes s

theorem setResize_totalNodes (hash : V → Nat) (s : SetState V) (n : Nat)
    (hWF : setWF hash s) (hn : 0 < n) (hbound : setTotalNodes s < U64) :
    setTotalNodes (setResize hash s n) = setTotalNodes s := by
  rw [setResize_eq_build hash s n (Nat.pos_iff_ne_zero.mp hn)]
  have hnd := setFlatten_nodup hash s hWF
  have hlen : s.buckets.flatten.length < U64 := by
    rw [setFlatten_length_eq_totalNodes]
    exact hbound
  rw [(setBuild_spec hash n hn s.buckets.flatten hnd hlen).2.2.1]
  exact setFlatten_length_eq_totalNodes s

theorem setResize_buckets_length (hash : V → Nat) (s : SetState V) (n : Nat)
    (hWF : setWF hash s) (hn : 0 < n) (hbound : setTotalNodes s < U64) :
    (setResize hash s n).buckets.length = n := by
  rw [setResize_eq_build hash s n (Nat.pos_iff_ne_zero.mp hn)]
  have hnd := setFlatten_nodup hash s hWF
  have hlen : s.buckets.flatten.length < U64 := by
    rw [setFlatten_length_eq_totalNodes]
    exact hbound
  exact (setBuild_spec hash n hn s.buckets.flatten hnd hlen).2.2.2.2

theorem setResize_wf (hash : V → Nat) (s : SetState V) (n : Nat)
    (hWF : setWF hash s) (hn : 0 < n) (hbound : setTotalNodes s < U64) :
    setWF hash (setResize hash s n) := by
  rw [setResize_eq_build hash s n (Nat.pos_iff_ne_zero.mp hn)]
  have hnd := setFlatten_nodup hash s hWF
  have hlen : s.buckets.flatten.length < U64 := by
    rw [setFlatten_length_eq_totalNodes]
    exact hbound
  exact (setBuild_spec hash n hn s.buckets.flatten hnd hlen).2.2.2.1

theorem setResize_zero (hash : V → Nat) (s : SetState V) :
    setResize hash s 0 = s := by
  simp [setResize]

end SetResizeLemmas

section TraceDefs

variable {K V : Type} [DecidableEq K]

/-- A single client call on the richer map. -/
inductive MapOp (K V : Type) where
  | insert (key : K) (val : V) (replace : Bool)
  | erase (key : K)
  | contains (key : K)
deriving DecidableEq

/-- State transition of one call (`Contains` is pure). -/
def runOp (hash : K → Nat) (m : MapState K V) : MapOp K V → MapState K V
  | .insert k v r => (mapInsert hash m k v r).1
  | .erase k => (mapErase hash m k).1
  | .contains _ => m

/-- Run a sequence of calls left to right. -/
def runOps (hash : K → Nat) (m : MapState K V) (ops : List (MapOp K V)) :
    MapState K V :=
  ops.foldl (runOp hash) m

/-- Reference model of one call on a single association list. -/
def modelStep (al : List (K × V)) : MapOp K V → List (K × V)
  | .insert k v r => (chainInsert k v r al).1
  | .erase k => (chainErase k al).1
  | .contains _ => al

/-- Reference model of a call sequence. -/
def modelRun (al : List (K × V)) (ops : List (MapOp K V)) : List (K × V) :=
  ops.foldl modelStep al

/-- One step of the key-liveness scan: an insert of the key makes it live,
an erase of the key kills it, anything else leaves it alone. -/
def keyLiveStep (k : K) (alive : Bool) : MapOp K V → Bool
  | .insert q _ _ => if q = k then true else alive
  | .erase q => if q = k then false else alive
  | .contains _ => alive

/-- Whether the last insert-or-erase of `k` in `ops` is an insert. -/
def keyLiveB (k : K) (ops : List (MapOp K V)) : Bool :=
  ops.foldl (keyLiveStep k) false

/-- Keys appearing in insert calls of the sequence. -/
def insertedKeys (ops : List (MapOp K V)) : List K :=
  ops.filterMap (fun op => match op with
    | .insert k _ _ => some k
    | _ => none)

/-- Claim-side liveness: some insert of `k` in the sequence returned true
and no later call is an erase of `k` (the sequence runs on a fresh table of
`n` buckets). -/
def SpecLive (hash : K → Nat) (n : Nat) (ops : List (MapOp K V)) (k : K) :
    Prop :=
  ∃ i, ∃ h : i < ops.length,
    (∃ v r, ops.get ⟨i, h⟩ = MapOp.insert k v r ∧
      (mapInsert hash (runOps hash (mapEmpty K V n) (ops.take i)) k v r).2 =
        true) ∧
    ∀ j, ∀ hj : j < ops.length, i < j → ops.get ⟨j, hj⟩ ≠ MapOp.erase k

/-- Simulation relation between a table and the reference association
list. -/
def Sim (hash : K → Nat) (m : MapState K V) (al : List (K × V)) : Prop :=
  mapWF hash m ∧ (al.map Prod.fst).Nodup ∧
    ∀ k, mapFind hash m k = chainFind k al

end TraceDefs

section TraceLemmas

variable {K V : Type} [DecidableEq K]

theorem incCount_eq (c : Nat) (h : c + 1 < U64) : incCount c = c + 1 :=
  Nat.mod_eq_of_lt h

theorem decCount_eq (c : Nat) (h1 : 0 < c) (h2 : c < U64) :
    decCount c = c - 1 := by
  have hU : 0 < U64 := by norm_num [U64]
  have hsplit : c + (U64 - 1) = (c - 1) + 1 * U64 := by omega
  rw [decCount, hsplit, Nat.add_mul_mod_self_right]
  exact Nat.mod_eq_of_lt (by omega)

theorem mapFind_mapEmpty (hash : K → Nat) (n : Nat) (k : K) :
    mapFind hash (mapEmpty K V n) k = none := by
  simp only [mapFind, mapBucket]
  have hb : (mapEmpty K V n).buckets.getD
      (mapIdx hash (mapEmpty K V n) k) [] = [] := by
    show (List.replicate n ([] : List (K × V))).getD _ [] = []
    rw [List.getD_eq_getElem?_getD, List.getElem?_replicate]
    by_cases h : mapIdx hash (mapEmpty K V n) k < n <;> simp [h]
  rw [hb, chainFind]

theorem sim_empty (hash : K → Nat) (n : Nat) :
    Sim hash (mapEmpty K V n) ([] : List (K × V)) := by
  refine ⟨mapWF_empty hash n, by simp, fun k => ?_⟩
  rw [mapFind_mapEmpty, chainFind]

theorem chainFind_isSome_iff_mem_keys (key : K) (c : List (K × V)) :
    (chainFind key c).isSome = true ↔ key ∈ c.map Prod.fst := by
  rcases h : chainFind key c with _ | v
  · rw [chainFind_eq_none_iff] at h
    simp [h]
  · have hm : (key, v) ∈ c := chainFind_some_mem key c v h
    simp only [Option.isSome_some, true_iff]
    exact List.mem_map.mpr ⟨(key, v), hm, rfl⟩

theorem sim_step (hash : K → Nat) (m : MapState K V) (al : List (K × V))
    (op : MapOp K V) (hn : 0 < m.buckets.length) (hsim : Sim hash m al) :
    Sim hash (runOp hash m op) (modelStep al op) ∧
      (runOp hash m op).buckets.length = m.buckets.length := by
  obtain ⟨hWF, hnd, hfind⟩ := hsim
  cases op with
  | insert k v r =>
    refine ⟨⟨mapWF_mapInsert hash m k v r hWF hn,
      chainInsert_nodup k v r al hnd, fun q => ?_⟩,
      mapInsert_buckets_length hash m k v r⟩
    simp only [modelStep]
    by_cases hq : q = k
    · rw [hq]
      show mapFind hash (mapInsert hash m k v r).1 k = _
      rw [mapFind_mapInsert_self hash m k v r hn,
        chainFind_chainInsert_self k v r al, hfind k]
    · show mapFind hash (mapInsert hash m k v r).1 q = _
      rw [mapFind_mapInsert_ne hash m k q v r hn hq,
        chainFind_chainInsert_ne k q v r al hq, hfind q]
  | erase k =>
    refine ⟨⟨mapWF_mapErase hash m k hWF hn,
      chainErase_nodup k al hnd, fun q => ?_⟩,
      mapErase_buckets_length hash m k⟩
    simp only [modelStep]
    by_cases hq : q = k
    · rw [hq]
      show mapFind hash (mapErase hash m k).1 k = _
      rw [mapFind_mapErase_self hash m k hn
        (mapBucket_nodup hash m k hWF.1 hn),
        chainFind_chainErase_self k al hnd]
    · show mapFind hash (mapErase hash m k).1 q = _
      rw [mapFind_mapErase_ne hash m k q hn hq,
        chainFind_chainErase_ne k q al hq, hfind q]
  | contains k => exact ⟨⟨hWF, hnd, hfind⟩, rfl⟩

theorem count_step (hash : K → Nat) (m : MapState K V) (al : List (K × V))
    (op : MapOp K V) (hn : 0 < m.buckets.length) (hsim : Sim hash m al)
    (hcount : m.count = al.length) (hbound : al.length + 1 < U64) :
    (runOp hash m op).count = (modelStep al op).length := by
  obtain ⟨hWF, hnd, hfind⟩ := hsim
  cases op with
  | insert k v r =>
    show (mapInsert hash m k v r).1.count = _
    simp only [modelStep]
    rw [mapInsert_count, hfind k, chainInsert_length]
    by_cases hf : (chainFind k al).isNone
    · rw [if_pos hf, if_pos hf, hcount, incCount_eq al.length hbound]
    · rw [if_neg hf, if_neg hf, hcount]
  | erase k =>
    show (mapErase hash m k).1.count = _
    simp only [modelStep]
    rw [mapErase_count, hfind k, chainErase_length]
    by_cases hf : (chainFind k al).isSome
    · have hpos := chainFind_isSome_length_pos k al hf
      rw [if_pos hf, if_pos hf, hcount,
        decCount_eq al.length hpos (by omega)]
    · rw [if_neg hf, if_neg hf, hcount]
  | contains k => exact hcount

theorem modelStep_length_le (al : List (K × V)) (op : MapOp K V) :
    (modelStep al op).length ≤ al.length + 1 := by
  cases op with
  | insert k v r =>
    show (chainInsert k v r al).1.length ≤ _
    rw [chainInsert_length]
    by_cases hf : (chainFind k al).isNone <;> simp [hf]
  | erase k =>
    show (chainErase k al).1.length ≤ _
    rw [chainErase_length]
    by_cases hf : (chainFind k al).isSome <;> simp [hf] <;> omega
  | contains k => simp [modelStep]

theorem sim_run (hash : K → Nat) (ops : List (MapOp K V)) :
    ∀ (m : MapState K V) (al : List (K × V)), 0 < m.buckets.length →
      Sim hash m al →
      Sim hash (runOps hash m ops) (modelRun al ops) ∧
        (runOps hash m ops).buckets.length = m.buckets.length := by
  induction ops with
  | nil => exact fun m al _ hsim => ⟨hsim, rfl⟩
  | cons op rest ih =>
    intro m al hn hsim
    obtain ⟨hsim2, hlen2⟩ := sim_step hash m al op hn hsim
    have hn2 : 0 < (runOp hash m op).buckets.length := by
      rw [hlen2]
      exact hn
    obtain ⟨hsim3, hlen3⟩ := ih (runOp hash m op) (modelStep al op) hn2 hsim2
    exact ⟨hsim3, by rw [runOps, List.foldl_cons, ← runOps, hlen3, hlen2]⟩

theorem simc_run (hash : K → Nat) (ops : List (MapOp K V)) :
    ∀ (m : MapState K V) (al : List (K × V)), 0 < m.buckets.length →
      Sim hash m al → m.count = al.length →
      al.length + ops.length < U64 →
      (runOps hash m ops).count = (modelRun al ops).length := by
  induction ops with
  | nil => exact fun m al _ _ hcount _ => hcount
  | cons op rest ih =>
    intro m al hn hsim hcount hbound
    have hb1 : al.length + 1 < U64 := by
      have : (op :: rest).length = rest.length + 1 := rfl
      omega
    obtain ⟨hsim2, hlen2⟩ := sim_step hash m al op hn hsim
    have hn2 : 0 < (runOp hash m op).buckets.length := by
      rw [hlen2]
      exact hn
    have hcount2 := count_step hash m al op hn hsim hcount hb1
    have hle := modelStep_length_le al op
    have hbound2 : (modelStep al op).length + rest.length < U64 := by
      have : (op :: rest).length = rest.length + 1 := rfl
      omega
    exact ih (runOp hash m op) (modelStep al op) hn2 hsim2 hcount2 hbound2

end TraceLemmas

section KeyLiveLemmas

variable {K V : Type} [DecidableEq K]

theorem model_isSome_keyLive (k : K) (ops : List (MapOp K V)) :
    ∀ (al : List (K × V)) (b : Bool), (al.map Prod.fst).Nodup →
      (chainFind k al).isSome = b →
      (chainFind k (modelRun al ops)).isSome = ops.foldl (keyLiveStep k) b := by
  induction ops with
  | nil => exact fun al b _ hb => hb
  | cons op rest ih =>
    intro al b hnd hb
    have hstep : modelRun al (op :: rest) = modelRun (modelStep al op) rest :=
      rfl
    have hfold : (op :: rest).foldl (keyLiveStep k) b =
        rest.foldl (keyLiveStep k) (keyLiveStep k b op) := rfl
    rw [hstep, hfold]
    apply ih
    · cases op with
      | insert q v r => exact chainInsert_nodup q v r al hnd
      | erase q => exact chainErase_nodup q al hnd
      | contains q => exact hnd
    · cases op with
      | insert q v r =>
        simp only [modelStep, keyLiveStep]
        by_cases hq : q = k
        · subst hq
          rw [chainFind_chainInsert_self q v r al, if_pos rfl]
          rcases h : chainFind q al with _ | w
          · simp
          · by_cases hr : r <;> simp [hr]
        · rw [chainFind_chainInsert_ne q k v r al (Ne.symm hq), if_neg hq]
          exact hb
      | erase q =>
        simp only [modelStep, keyLiveStep]
        by_cases hq : q = k
        · subst hq
          rw [chainFind_chainErase_self q al hnd, if_pos rfl]
          rfl
        · rw [chainFind_chainErase_ne q k al (Ne.symm hq), if_neg hq]
          exact hb
      | contains q =>
        simp only [modelStep, keyLiveStep]
        exact hb

theorem contains_run_eq_keyLiveB (hash : K → Nat) (n : Nat)
    (ops : List (MapOp K V)) (k : K) (hn : 0 < n) :
    mapContains hash (runOps hash (mapEmpty K V n) ops) k = keyLiveB k ops := by
  have hsim := sim_run hash ops (mapEmpty K V n) []
    (by simpa [mapEmpty] using hn) (sim_empty hash n)
  rw [mapContains_eq_isSome, hsim.1.2.2 k]
  exact model_isSome_keyLive k ops [] false (by simp) (by simp [chainFind])

theorem specLive_snoc_not_erase (hash : K → Nat) (n : Nat)
    (l : List (MapOp K V)) (k : K) (op : MapOp K V)
    (hop : op ≠ MapOp.erase k) (h : SpecLive hash n l k) :
    SpecLive hash n (l ++ [op]) k := by
  obtain ⟨i, hi, ⟨v, r, hget, hsucc⟩, hafter⟩ := h
  have hi2 : i < (l ++ [op]).length := by
    simp only [List.length_append, List.length_cons, List.length_nil]
    omega
  refine ⟨i, hi2, ⟨v, r, ?_, ?_⟩, ?_⟩
  · rw [List.get_eq_getElem] at hget ⊢
    rw [List.getElem_append_left hi]
    exact hget
  · rw [List.take_append_of_le_length (le_of_lt hi)]
    exact hsucc
  · intro j hj hij
    rw [List.get_eq_getElem]
    have hj3 : j < l.length ∨ j = l.length := by
      simp only [List.length_append, List.length_cons, List.length_nil] at hj
      omega
    rcases hj3 with hj3 | hj3
    · rw [List.getElem_append_left hj3]
      have hx := hafter j hj3 hij
      rw [List.get_eq_getElem] at hx
      exact hx
    · subst hj3
      rw [List.getElem_append_right (le_refl _)]
      simpa using hop

theorem specLive_snoc_restrict (hash : K → Nat) (n : Nat)
    (l : List (MapOp K V)) (k : K) (op : MapOp K V)
    (hop : ∀ v r, op ≠ MapOp.insert k v r)
    (h : SpecLive hash n (l ++ [op]) k) : SpecLive hash n l k := by
  obtain ⟨i, hi, ⟨v, r, hget, hsucc⟩, hafter⟩ := h
  have hil : i < l.length := by
    rcases Nat.lt_or_ge i l.length with h1 | h1
    · exact h1
    · exfalso
      have hieq : i = l.length := by
        simp only [List.length_append, List.length_cons, List.length_nil] at hi
        omega
      subst hieq
      rw [List.get_eq_getElem, List.getElem_append_right (le_refl _)] at hget
      simp only [Nat.sub_self, List.getElem_cons_zero] at hget
      exact hop v r hget
  refine ⟨i, hil, ⟨v, r, ?_, ?_⟩, ?_⟩
  · rw [List.get_eq_getElem] at hget ⊢
    rw [List.getElem_append_left hil] at hget
    exact hget
  · rw [List.take_append_of_le_length (le_of_lt hil)] at hsucc
    exact hsucc
  · intro j hj hij
    have hj2 : j < (l ++ [op]).length := by
      simp only [List.length_append, List.length_cons, List.length_nil]
      omega
    have hx := hafter j hj2 hij
    rw [List.get_eq_getElem, List.getElem_append_left hj] at hx
    rw [List.get_eq_getElem]
    exact hx

theorem specLive_snoc_insert_true (hash : K → Nat) (n : Nat)
    (l : List (MapOp K V)) (k : K) (v : V) (r : Bool)
    (hsucc : (mapInsert hash (runOps hash (mapEmpty K V n) l) k v r).2 =
      true) : SpecLive hash n (l ++ [MapOp.insert k v r]) k := by
  have hi : l.length < (l ++ [MapOp.insert k v r]).length := by simp
  refine ⟨l.length, hi, ⟨v, r, ?_, ?_⟩, ?_⟩
  · rw [List.get_eq_getElem, List.getElem_append_right (le_refl _)]
    simp
  · rw [List.take_left]
    exact hsucc
  · intro j hj hij
    exfalso
    simp only [List.length_append, List.length_cons, List.length_nil] at hj
    omega

theorem not_specLive_snoc_erase (hash : K → Nat) (n : Nat)
    (l : List (MapOp K V)) (k : K) :
    ¬ SpecLive hash n (l ++ [MapOp.erase k]) k := by
  rintro ⟨i, hi, ⟨v, r, hget, _⟩, hafter⟩
  rcases Nat.lt_or_ge i l.length with h1 | h1
  · have hj : l.length < (l ++ [MapOp.erase k]).length := by simp
    have hx := hafter l.length hj h1
    rw [List.get_eq_getElem, List.getElem_append_right (le_refl _)] at hx
    simp at hx
  · have hieq : i = l.length := by
      simp only [List.length_append, List.length_cons, List.length_nil] at hi
      omega
    subst hieq
    rw [List.get_eq_getElem, List.getElem_append_right (le_refl _)] at hget
    simp at hget

theorem specLive_iff_keyLiveB (hash : K → Nat) (n : Nat) (hn : 0 < n)
    (ops : List (MapOp K V)) (k : K) :
    SpecLive hash n ops k ↔ keyLiveB k ops = true := by
  induction ops using List.reverseRecOn with
  | nil =>
    constructor
    · rintro ⟨i, hi, _, _⟩
      simp at hi
    · intro h
      simp [keyLiveB] at h
  | append_singleton l op ih =>
    have hfold : keyLiveB k (l ++ [op]) =
        keyLiveStep k (keyLiveB k l) op := by
      simp [keyLiveB, List.foldl_append]
    cases op with
    | insert q v r =>
      by_cases hq : q = k
      · subst hq
        rw [hfold]
        simp only [keyLiveStep, if_pos rfl]
        constructor
        · intro _
          rfl
        · intro _
          by_cases hl : keyLiveB q l = true
          · exact specLive_snoc_not_erase hash n l q _ (by simp) (ih.mpr hl)
          · apply specLive_snoc_insert_true
            rw [mapInsert_ret]
            have hsim := sim_run hash l (mapEmpty K V n) []
              (by simpa [mapEmpty] using hn) (sim_empty hash n)
            have hfind := hsim.1.2.2 q
            have hlive := model_isSome_keyLive q l [] false (by simp)
              (by simp [chainFind])
            rw [hfind]
            have hfalse : (chainFind q (modelRun [] l)).isSome = false := by
              rw [hlive]
              exact Bool.not_eq_true _ ▸ Bool.of_not_eq_true hl
            rcases hcf : chainFind q (modelRun [] l) with _ | w
            · simp
            · rw [hcf] at hfalse
              simp at hfalse
      · rw [hfold]
        have hstep : keyLiveStep k (keyLiveB k l) (MapOp.insert q v r) =
            keyLiveB k l := by
          simp [keyLiveStep, hq]
        rw [hstep, ← ih]
        constructor
        · apply specLive_snoc_restrict hash n l k _
          intro v2 r2 hc
          injection hc with h1 h2 h3
          exact hq h1
        · apply specLive_snoc_not_erase hash n l k _
          simp
    | erase q =>
      by_cases hq : q = k
      · subst hq
        rw [hfold]
        have hstep : keyLiveStep q (keyLiveB q l)
            (MapOp.erase q : MapOp K V) = false := by
          simp [keyLiveStep]
        rw [hstep]
        constructor
        · intro h
          exact absurd h (not_specLive_snoc_erase hash n l q)
        · intro h
          simp at h
      · rw [hfold]
        have hstep : keyLiveStep k (keyLiveB k l)
            (MapOp.erase q : MapOp K V) = keyLiveB k l := by
          simp [keyLiveStep, hq]
        rw [hstep, ← ih]
        constructor
        · apply specLive_snoc_restrict hash n l k _
          intro v2 r2 hc
          exact MapOp.noConfusion hc
        · apply specLive_snoc_not_erase hash n l k _
          simp [hq]
    | contains q =>
      rw [hfold]
      have hstep : keyLiveStep k (keyLiveB k l)
          (MapOp.contains q : MapOp K V) = keyLiveB k l := by
        simp [keyLiveStep]
      rw [hstep, ← ih]
      constructor
      · apply specLive_snoc_restrict hash n l k _
        intro v2 r2 hc
        exact MapOp.noConfusion hc
      · apply specLive_snoc_not_erase hash n l k _
        simp

end KeyLiveLemmas

section CountLemmas

variable {K V : Type} [DecidableEq K]

theorem keyLiveB_mem_insertedKeys (k : K) (ops : List (MapOp K V))
    (h : keyLiveB k ops = true) : k ∈ insertedKeys ops := by
  induction ops using List.reverseRecOn with
  | nil => simp [keyLiveB] at h
  | append_singleton l op ih =>
    rw [keyLiveB, List.foldl_append] at h
    have hins : insertedKeys (l ++ [op]) =
        insertedKeys l ++ insertedKeys [op] := by
      simp [insertedKeys]
    rw [hins]
    cases op with
    | insert q v r =>
      by_cases hq : q = k
      · apply List.mem_append_right
        simp [insertedKeys, hq]
      · simp only [List.foldl_cons, List.foldl_nil, keyLiveStep,
          if_neg hq] at h
        exact List.mem_append_left _ (ih h)
    | erase q =>
      by_cases hq : q = k
      · simp [keyLiveStep, hq] at h
      · simp only [List.foldl_cons, List.foldl_nil, keyLiveStep,
          if_neg hq] at h
        exact List.mem_append_left _ (ih h)
    | contains q =>
      simp only [List.foldl_cons, List.foldl_nil, keyLiveStep] at h
      exact List.mem_append_left _ (ih h)

theorem mem_model_keys_iff (k : K) (ops : List (MapOp K V)) :
    k ∈ (modelRun ([] : List (K × V)) ops).map Prod.fst ↔
      keyLiveB k ops = true := by
  rw [← chainFind_isSome_iff_mem_keys]
  rw [model_isSome_keyLive k ops [] false (by simp) (by simp [chainFind])]
  exact Iff.rfl

theorem run_count_eq_live (hash : K → Nat) (n : Nat)
    (ops : List (MapOp K V)) (hn : 0 < n) (hbound : ops.length < U64) :
    (runOps hash (mapEmpty K V n) ops).count =
      ((insertedKeys ops).dedup.filter (fun k => keyLiveB k ops)).length := by
  have hcount := simc_run hash ops (mapEmpty K V n) []
    (by simpa [mapEmpty] using hn) (sim_empty hash n) rfl
    (by simpa using hbound)
  rw [hcount]
  have hnd1 : ((modelRun ([] : List (K × V)) ops).map Prod.fst).Nodup :=
    (sim_run hash ops (mapEmpty K V n) [] (by simpa [mapEmpty] using hn)
      (sim_empty hash n)).1.2.1
  have hnd2 : ((insertedKeys ops).dedup.filter
      (fun k => keyLiveB k ops)).Nodup :=
    (List.nodup_dedup _).filter _
  have hperm : ((modelRun ([] : List (K × V)) ops).map Prod.fst).Perm
      ((insertedKeys ops).dedup.filter (fun k => keyLiveB k ops)) := by
    rw [List.perm_ext_iff_of_nodup hnd1 hnd2]
    intro k
    rw [List.mem_filter, List.mem_dedup, mem_model_keys_iff]
    constructor
    · intro hlive
      exact ⟨keyLiveB_mem_insertedKeys k ops hlive, hlive⟩
    · rintro ⟨_, hlive⟩
      exact hlive
  have hlen := hperm.length_eq
  rw [List.length_map] at hlen
  exact hlen

end CountLemmas

section LegacyLemmas

variable {K V : Type} [DecidableEq K]

theorem lChainInsert_eq_chainInsert (key : K) (val : V) (c : List (K × V)) :
    lChainInsert key val c = (chainInsert key val true c).1 := by
  induction c with
  | nil => simp [lChainInsert, chainInsert]
  | cons p rest ih =>
    simp only [lChainInsert, chainInsert]
    by_cases h : p.1 = key <;> simp [h, ih]

theorem lChainErase_eq_chainErase (key : K) (c : List (K × V)) :
    lChainErase key c = chainErase key c := by
  induction c with
  | nil => simp [lChainErase, chainErase]
  | cons p rest ih =>
    simp only [lChainErase, chainErase]
    by_cases h : p.1 = key <;> simp [h, ih]

theorem lChainFind_eq_chainFind (key : K) (c : List (K × V)) :
    lChainFind key c = chainFind key c := by
  induction c with
  | nil => simp [lChainFind, chainFind]
  | cons p rest ih =>
    simp only [lChainFind, chainFind]
    by_cases h : p.1 = key <;> simp [h, ih]

theorem lChainContains_eq_chainContains (key : K) (c : List (K × V)) :
    lChainContains key c = chainContains key c := by
  induction c with
  | nil => simp [lChainContains, chainContains]
  | cons p rest ih =>
    simp only [lChainContains, chainContains]
    by_cases h : p.1 = key <;> simp [h, ih]

/-- A single client call on the legacy map (src/map.h): no replace flag. -/
inductive LOp (K V : Type) where
  | insert (key : K) (val : V)
  | erase (key : K)
  | find (key : K)

/-- The richer-variant call that C10 pairs with each legacy call: legacy
`Insert(k, v)` maps to `Insert(k, v, replace=true)`. -/
def toRichOp : LOp K V → MapOp K V
  | .insert k v => MapOp.insert k v true
  | .erase k => MapOp.erase k
  | .find k => MapOp.contains k

/-- State transition of one legacy call. -/
def runLOp (hash : K → Nat) (b : LegacyState K V) : LOp K V → LegacyState K V
  | .insert k v => lInsert hash b k v
  | .erase k => (lErase hash b k).1
  | .find _ => b

/-- Run a sequence of legacy calls. -/
def runLOps (hash : K → Nat) (b : LegacyState K V) (ops : List (LOp K V)) :
    LegacyState K V :=
  ops.foldl (runLOp hash) b

theorem lInsert_eq_mapInsert (hash : K → Nat) (b : LegacyState K V)
    (k : K) (v : V) (cnt : Nat) :
    lInsert hash b k v = (mapInsert hash ⟨b, cnt⟩ k v true).1.buckets := by
  simp only [lInsert, mapInsert]
  rw [lChainInsert_eq_chainInsert]
  rfl

theorem lErase_eq_mapErase (hash : K → Nat) (b : LegacyState K V)
    (k : K) (cnt : Nat) :
    (lErase hash b k).1 = (mapErase hash ⟨b, cnt⟩ k).1.buckets ∧
      (lErase hash b k).2 = (mapErase hash ⟨b, cnt⟩ k).2 := by
  simp only [lErase, mapErase]
  rw [lChainErase_eq_chainErase]
  exact ⟨rfl, rfl⟩

theorem lFind_eq_mapFind (hash : K → Nat) (b : LegacyState K V) (k : K)
    (cnt : Nat) : lFind hash b k = mapFind hash ⟨b, cnt⟩ k := by
  simp only [lFind, mapFind]
  rw [lChainFind_eq_chainFind]
  rfl

theorem lContains_eq_mapContains (hash : K → Nat) (b : LegacyState K V)
    (k : K) (cnt : Nat) :
    lContains hash b k = mapContains hash ⟨b, cnt⟩ k := by
  simp only [lContains, mapContains]
  rw [lChainContains_eq_chainContains]
  rfl

theorem runLOps_eq_runOps (hash : K → Nat) (ops : List (LOp K V)) :
    ∀ (b : LegacyState K V) (cnt : Nat),
      runLOps hash b ops =
        (runOps hash ⟨b, cnt⟩ (ops.map toRichOp)).buckets := by
  induction ops with
  | nil => exact fun b cnt => rfl
  | cons op rest ih =>
    intro b cnt
    cases op with
    | insert k v =>
      have hstep : runLOps hash b (LOp.insert k v :: rest) =
          runLOps hash (lInsert hash b k v) rest := rfl
      have hstate : (mapInsert hash ⟨b, cnt⟩ k v true).1 =
          ⟨lInsert hash b k v, (mapInsert hash ⟨b, cnt⟩ k v true).1.count⟩ := by
        rw [lInsert_eq_mapInsert hash b k v cnt]
      rw [hstep, ih (lInsert hash b k v)
        ((mapInsert hash ⟨b, cnt⟩ k v true).1.count)]
      show _ = (runOps hash (runOp hash ⟨b, cnt⟩
        (MapOp.insert k v true)) (rest.map toRichOp)).buckets
      show _ = (runOps hash (mapInsert hash ⟨b, cnt⟩ k v true).1
        (rest.map toRichOp)).buckets
      rw [hstate]
    | erase k =>
      have hstep : runLOps hash b (LOp.erase k :: rest) =
          runLOps hash (lErase hash b k).1 rest := rfl
      have hstate : (mapErase hash ⟨b, cnt⟩ k).1 =
          ⟨(lErase hash b k).1, (mapErase hash ⟨b, cnt⟩ k).1.count⟩ := by
        rw [(lErase_eq_mapErase hash b k cnt).1]
      rw [hstep, ih (lErase hash b k).1 ((mapErase hash ⟨b, cnt⟩ k).1.count)]
      show _ = (runOps hash (runOp hash ⟨b, cnt⟩
        (MapOp.erase k)) (rest.map toRichOp)).buckets
      show _ = (runOps hash (mapErase hash ⟨b, cnt⟩ k).1
        (rest.map toRichOp)).buckets
      rw [hstate]
    | find k =>
      exact ih b cnt

end LegacyLemmas

section NodupOnly

variable {K V : Type} [DecidableEq K]

theorem chainsNodup_mapInsert (hash : K → Nat) (m : MapState K V) (key : K)
    (val : V) (rep : Bool) (hn : 0 < m.buckets.length)
    (hnd : ChainsNodup m) : ChainsNodup (mapInsert hash m key val rep).1 := by
  intro c hc
  simp only [mapInsert] at hc
  rcases List.mem_or_eq_of_mem_set hc with hc | hc
  · exact hnd c hc
  · rw [hc]
    exact chainInsert_nodup key val rep (mapBucket hash m key)
      (mapBucket_nodup hash m key hnd hn)

theorem chainsNodup_mapErase (hash : K → Nat) (m : MapState K V) (key : K)
    (hn : 0 < m.buckets.length) (hnd : ChainsNodup m) :
    ChainsNodup (mapErase hash m key).1 := by
  intro c hc
  simp only [mapErase] at hc
  rcases List.mem_or_eq_of_mem_set hc with hc | hc
  · exact hnd c hc
  · rw [hc]
    exact chainErase_nodup key (mapBucket hash m key)
      (mapBucket_nodup hash m key hnd hn)

theorem chainsNodup_mapFastInsert (hash : K → Nat) (m : MapState K V)
    (key : K) (val : V) (hn : 0 < m.buckets.length) (hnd : ChainsNodup m) :
    ChainsNodup (mapFastInsert hash m key val) := by
  intro c hc
  simp only [mapFastInsert] at hc
  rcases List.mem_or_eq_of_mem_set hc with hc | hc
  · exact hnd c hc
  · rw [hc]
    exact chainFastInsert_nodup key val (mapBucket hash m key)
      (mapBucket_nodup hash m key hnd hn)

theorem chainsNodup_foldl (hash : K → Nat) (es : List (K × V)) :
    ∀ acc : MapState K V, ChainsNodup acc → 0 < acc.buckets.length →
      ChainsNodup
        (es.foldl (fun a p => mapFastInsert hash a p.1 p.2) acc) := by
  induction es with
  | nil => exact fun acc hnd _ => hnd
  | cons p rest ih =>
    intro acc hnd hn
    apply ih
    · exact chainsNodup_mapFastInsert hash acc p.1 p.2 hn hnd
    · rw [mapFastInsert_buckets_length]
      exact hn

theorem chainsNodup_mapResize (hash : K → Nat) (m : MapState K V) (nr : Nat)
    (hnd : ChainsNodup m) : ChainsNodup (mapResize hash m nr) := by
  by_cases hz : nr = 0
  · rw [hz, mapResize_zero]
    exact hnd
  · rw [mapResize_eq_build hash m nr hz, mapBuild]
    apply chainsNodup_foldl
    · exact (mapWF_empty hash nr).1
    · show 0 < (List.replicate nr ([] : List (K × V))).length
      simp only [List.length_replicate]
      omega

end NodupOnly

section SetNodupOnly

variable {V : Type} [DecidableEq V]

theorem setChainsNodup_setInsert (hash : V → Nat) (s : SetState V) (x : V)
    (hn : 0 < s.buckets.length) (hnd : SetChainsNodup s) :
    SetChainsNodup (setInsert hash s x) := by
  intro c hc
  simp only [setInsert] at hc
  rcases List.mem_or_eq_of_mem_set hc with hc | hc
  · exact hnd c hc
  · rw [hc]
    exact setChainInsert_nodup x (setBucket hash s x)
      (setBucket_nodup hash s x hnd hn)

theorem setChainsNodup_setErase (hash : V → Nat) (s : SetState V) (x : V)
    (hn : 0 < s.buckets.length) (hnd : SetChainsNodup s) :
    SetChainsNodup (setErase hash s x).1 := by
  intro c hc
  simp only [setErase] at hc
  rcases List.mem_or_eq_of_mem_set hc with hc | hc
  · exact hnd c hc
  · rw [hc]
    exact setChainErase_nodup x (setBucket hash s x)
      (setBucket_nodup hash s x hnd hn)

theorem setChainsNodup_setFastInsert (hash : V → Nat) (s : SetState V)
    (x : V) (hn : 0 < s.buckets.length) (hnd : SetChainsNodup s) :
    SetChainsNodup (setFastInsert hash s x) := by
  rw [setFastInsert_eq_insert]
  exact setChainsNodup_setInsert hash s x hn hnd

theorem setChainsNodup_foldl (hash : V → Nat) (es : List V) :
    ∀ acc : SetState V, SetChainsNodup acc → 0 < acc.buckets.length →
      SetChainsNodup (es.foldl (fun a x => setFastInsert hash a x) acc) := by
  induction es with
  | nil => exact fun acc hnd _ => hnd
  | cons x rest ih =>
    intro acc hnd hn
    apply ih
    · exact setChainsNodup_setFastInsert hash acc x hn hnd
    · show 0 < (setFastInsert hash acc x).buckets.length
      rw [setFastInsert_eq_insert, setInsert_buckets_length]
      exact hn

theorem setChainsNodup_setResize (hash : V → Nat) (s : SetState V) (nr : Nat)
    (hnd : SetChainsNodup s) : SetChainsNodup (setResize hash s nr) := by
  by_cases hz : nr = 0
  · rw [hz, setResize_zero]
    exact hnd
  · rw [setResize_eq_build hash s nr hz, setBuild]
    apply setChainsNodup_foldl
    · exact (setWF_empty hash nr).1
    · show 0 < (List.replicate nr ([] : List V)).length
      simp only [List.length_replicate]
      omega

end SetNodupOnly

/-- C1: for every finite sequence of Insert/Erase/Contains calls executed
sequentially on a fresh table of `n` buckets, `Contains(k)` returns true if
and only if some Insert of `k` in the sequence returned true (a successful
insert) and no later call in the sequence is an Erase of `k`. -/
theorem C1_contains_iff_live {K V : Type} [DecidableEq K] (hash : K → Nat)
    (n : Nat) (ops : List (MapOp K V)) (k : K) (hn : 0 < n) :
    mapContains hash (runOps hash (mapEmpty K V n) ops) k = true ↔
      SpecLive hash n ops k := by
  rw [contains_run_eq_keyLiveB hash n ops k hn]
  exact (specLive_iff_keyLiveB hash n hn ops k).symm

/-- Witness for C1 at a concrete sequence. -/
theorem C1_witness :
    0 < 2 ∧
      (mapContains (fun x : Nat => x)
          (runOps (fun x : Nat => x) (mapEmpty Nat Nat 2)
            [MapOp.insert 1 10 false, MapOp.erase 1,
             MapOp.insert 1 20 false, MapOp.contains 1]) 1 = true ↔
        SpecLive (fun x : Nat => x) 2
          [MapOp.insert 1 10 false, MapOp.erase 1,
           MapOp.insert 1 20 false, MapOp.contains 1] 1) :=
  ⟨by decide,
   C1_contains_iff_live (fun x : Nat => x) 2
     [MapOp.insert 1 10 false, MapOp.erase 1,
      MapOp.insert 1 20 false, MapOp.contains 1] 1 (by decide)⟩

/-- C8: the claim says `Set::Insert(value)` returns a bool; in the source
the function is declared `void` and returns nothing, so only the state
effect is observable.  Evaluating the embedded `Set::Insert` at the failing
input: inserting an absent value does create the node (and bumps the
counter), and re-inserting it is an idempotent no-op — but no boolean comes
back, the function's result is just the new table state. -/
theorem C8_set_insert_void_behavior :
    setInsert (fun v : Nat => v) (setEmpty Nat 2) 1 =
      SetState.mk [[], [1]] 1 ∧
    setContains (fun v : Nat => v)
      (setInsert (fun v : Nat => v) (setEmpty Nat 2) 1) 1 = true ∧
    setInsert (fun v : Nat => v)
        (setInsert (fun v : Nat => v) (setEmpty Nat 2) 1) 1 =
      setInsert (fun v : Nat => v) (setEmpty Nat 2) 1 :=
  ⟨rfl, rfl, rfl⟩

/-- C10: the legacy map's Insert (src/map.h, no replace flag)
unconditionally overwrites the value of a present key, so running any
sequence of legacy calls from a fresh table leaves exactly the buckets the
richer variant produces when each Insert is called with replace=true, and
Find/Contains agree on every key. -/
theorem C10_legacy_equiv_replace_true {K V : Type} [DecidableEq K]
    (hash : K → Nat) (n : Nat) (ops : List (LOp K V)) :
    runLOps hash (lEmpty K V n) ops =
      (runOps hash (mapEmpty K V n) (ops.map toRichOp)).buckets ∧
    (∀ k, lFind hash (runLOps hash (lEmpty K V n) ops) k =
      mapFind hash (runOps hash (mapEmpty K V n) (ops.map toRichOp)) k) ∧
    (∀ k, lContains hash (runLOps hash (lEmpty K V n) ops) k =
      mapContains hash (runOps hash (mapEmpty K V n) (ops.map toRichOp)) k) := by
  have hrun := runLOps_eq_runOps hash ops (lEmpty K V n) 0
  have hempty : (mapEmpty K V n) =
      (⟨lEmpty K V n, 0⟩ : MapState K V) := rfl
  have hrun2 : runLOps hash (lEmpty K V n) ops =
      (runOps hash (mapEmpty K V n) (ops.map toRichOp)).buckets := by
    rw [hempty]
    exact hrun
  refine ⟨hrun2, fun k => ?_, fun k => ?_⟩
  · rw [lFind_eq_mapFind hash _ k
      (runOps hash (mapEmpty K V n) (ops.map toRichOp)).count]
    congr 1
    rw [hrun2]
  · rw [lContains_eq_mapContains hash _ k
      (runOps hash (mapEmpty K V n) (ops.map toRichOp)).count]
    congr 1
    rw [hrun2]

/-- C4: inserting a present key with replace=false leaves the stored value
unchanged and returns false; with replace=true it overwrites the value and
returns true; for Set, inserting a present value leaves the whole table
unchanged (idempotent no-op, the "already present" case). -/
theorem C4_replace_semantics {K V W : Type} [DecidableEq K] [DecidableEq W]
    (hash : K → Nat) (m : MapState K V) (k : K) (w v : V)
    (hn : 0 < m.buckets.length) (hpresent : mapFind hash m k = some w) :
    ((mapInsert hash m k v false).2 = false ∧
     mapFind hash (mapInsert hash m k v false).1 k = some w ∧
     (mapInsert hash m k v true).2 = true ∧
     mapFind hash (mapInsert hash m k v true).1 k = some v) ∧
    (∀ (hw : W → Nat) (s : SetState W) (x : W), 0 < s.buckets.length →
      setContains hw s x = true → setInsert hw s x = s) := by
  refine ⟨⟨?_, ?_, ?_, ?_⟩, fun hw s x hns hc => setInsert_noop hw s x hns hc⟩
  · rw [mapInsert_ret, hpresent]
    rfl
  · rw [mapFind_mapInsert_self hash m k v false hn, hpresent]
    rfl
  · rw [mapInsert_ret, hpresent]
    rfl
  · rw [mapFind_mapInsert_self hash m k v true hn, hpresent]
    rfl

/-- Witness for C4 on a concrete populated table. -/
theorem C4_witness :
    0 < (SetState.mk ([[], [(1, 7)]] : List (List (Nat × Nat))) 1).buckets.length ∧
    (((mapInsert (fun x : Nat => x)
        (MapState.mk [[], [(1, 7)]] 1) 1 9 false).2 = false ∧
      mapFind (fun x : Nat => x)
        (mapInsert (fun x : Nat => x)
          (MapState.mk [[], [(1, 7)]] 1) 1 9 false).1 1 = some 7 ∧
      (mapInsert (fun x : Nat => x)
        (MapState.mk [[], [(1, 7)]] 1) 1 9 true).2 = true ∧
      mapFind (fun x : Nat => x)
        (mapInsert (fun x : Nat => x)
          (MapState.mk [[], [(1, 7)]] 1) 1 9 true).1 1 = some 9) ∧
     (∀ (hw : Nat → Nat) (s : SetState Nat) (x : Nat),
        0 < s.buckets.length →
        setContains hw s x = true → setInsert hw s x = s)) :=
  ⟨by decide,
   C4_replace_semantics (fun x : Nat => x)
     (MapState.mk [[], [(1, 7)]] 1) 1 7 9 (by decide) (by decide)⟩

/-- C5: erasing an absent key returns false and leaves the counter
unchanged; erasing a present key returns true, removes the node with that
key (the key is gone, every other key's binding survives, the node total
drops by one), decrements the counter by exactly one, and a second erase of
the same key returns false.  The same holds for the Set. -/
theorem C5_erase_semantics {K V W : Type} [DecidableEq K] [DecidableEq W]
    (hash : K → Nat) (m : MapState K V) (k : K)
    (hn : 0 < m.buckets.length) (hWF : mapWF hash m)
    (hcnt : m.count = totalNodes m) (hbound : totalNodes m < U64) :
    ((mapFind hash m k = none →
        (mapErase hash m k).2 = false ∧
        (mapErase hash m k).1.count = m.count) ∧
     (mapFind hash m k ≠ none →
        (mapErase hash m k).2 = true ∧
        mapFind hash (mapErase hash m k).1 k = none ∧
        (∀ q, q ≠ k →
          mapFind hash (mapErase hash m k).1 q = mapFind hash m q) ∧
        totalNodes (mapErase hash m k).1 = totalNodes m - 1 ∧
        (mapErase hash m k).1.count = m.count - 1 ∧
        (mapErase hash (mapErase hash m k).1 k).2 = false)) ∧
    (∀ (hw : W → Nat) (s : SetState W) (x : W), 0 < s.buckets.length →
      SetChainsNodup s → s.count = setTotalNodes s → setTotalNodes s < U64 →
      (setContains hw s x = false →
        (setErase hw s x).2 = false ∧ (setErase hw s x).1.count = s.count) ∧
      (setContains hw s x = true →
        (setErase hw s x).2 = true ∧
        setContains hw (setErase hw s x).1 x = false ∧
        (∀ y, y ≠ x →
          setContains hw (setErase hw s x).1 y = setContains hw s y) ∧
        setTotalNodes (setErase hw s x).1 = setTotalNodes s - 1 ∧
        (setErase hw s x).1.count = s.count - 1 ∧
        (setErase hw (setErase hw s x).1 x).2 = false)) := by
  constructor
  · constructor
    · intro habs
      constructor
      · rw [mapErase_ret, habs]
        rfl
      · rw [mapErase_count, habs]
        rfl
    · intro hpres
      have hsome : (mapFind hash m k).isSome = true := by
        rcases h : mapFind hash m k with _ | v
        · exact absurd h hpres
        · rfl
      have hfind0 : mapFind hash (mapErase hash m k).1 k = none :=
        mapFind_mapErase_self hash m k hn
          (mapBucket_nodup hash m k hWF.1 hn)
      have hpos : 0 < totalNodes m :=
        mapErase_totalNodes_pos hash m k hn hsome
      refine ⟨?_, hfind0, ?_, ?_, ?_, ?_⟩
      · rw [mapErase_ret]
        exact hsome
      · intro q hq
        exact mapFind_mapErase_ne hash m k q hn hq
      · rw [mapErase_totalNodes hash m k hn, if_pos hsome]
      · rw [mapErase_count, if_pos hsome, hcnt]
        exact decCount_eq (totalNodes m) hpos hbound
      · rw [mapErase_ret, hfind0]
        rfl
  · intro hw s x hns hnd hcnts hbs
    constructor
    · intro habs
      constructor
      · rw [setErase_ret, habs]
      · rw [setErase_count, habs]
        rfl
    · intro hpres
      have hcon0 : setContains hw (setErase hw s x).1 x = false :=
        setContains_setErase_self hw s x hns
          (setBucket_nodup hw s x hnd hns)
      have hpos : 0 < setTotalNodes s :=
        setErase_totalNodes_pos hw s x hns hpres
      refine ⟨?_, hcon0, ?_, ?_, ?_, ?_⟩
      · rw [setErase_ret]
        exact hpres
      · intro y hy
        exact setContains_setErase_ne hw s x y hns hy
      · rw [setErase_totalNodes hw s x hns, if_pos hpres]
      · rw [setErase_count, if_pos hpres, hcnts]
        exact decCount_eq (setTotalNodes s) hpos hbs
      · rw [setErase_ret, hcon0]

instance {K V : Type} [DecidableEq K] (m : MapState K V) :
    Decidable (ChainsNodup m) :=
  inferInstanceAs (Decidable (∀ c ∈ m.buckets, (c.map Prod.fst).Nodup))

instance {K V : Type} [DecidableEq K] (hash : K → Nat) (m : MapState K V) :
    Decidable (BucketsIdx hash m) :=
  inferInstanceAs (Decidable (∀ i, i < m.buckets.length →
    ∀ p ∈ m.buckets.getD i [], hash p.1 % m.buckets.length = i))

instance {K V : Type} [DecidableEq K] (hash : K → Nat) (m : MapState K V) :
    Decidable (mapWF hash m) :=
  inferInstanceAs (Decidable (ChainsNodup m ∧ BucketsIdx hash m))

instance {V : Type} [DecidableEq V] (s : SetState V) :
    Decidable (SetChainsNodup s) :=
  inferInstanceAs (Decidable (∀ c ∈ s.buckets, c.Nodup))

instance {V : Type} [DecidableEq V] (hash : V → Nat) (s : SetState V) :
    Decidable (SetBucketsIdx hash s) :=
  inferInstanceAs (Decidable (∀ i, i < s.buckets.length →
    ∀ v ∈ s.buckets.getD i [], hash v % s.buckets.length = i))

instance {V : Type} [DecidableEq V] (hash : V → Nat) (s : SetState V) :
    Decidable (setWF hash s) :=
  inferInstanceAs (Decidable (SetChainsNodup s ∧ SetBucketsIdx hash s))

/-- Witness for C5 on a concrete one-entry map and set. -/
theorem C5_witness :
    (mapErase (fun x : Nat => x) (MapState.mk [[], [(1, 7)]] 1) 1).2 = true ∧
    (mapErase (fun x : Nat => x) (MapState.mk [[], [(1, 7)]] 1) 1).1.count = 0 ∧
    (setErase (fun x : Nat => x) (SetState.mk [[], [1]] 1) 1).2 = true := by
  have h := @C5_erase_semantics Nat Nat Nat _ _ (fun x : Nat => x)
    (MapState.mk [[], [(1, 7)]] 1) 1 (by decide) (by decide) (by decide)
    (by decide)
  have h2 := h.1.2 (by decide)
  have h3 := (h.2 (fun x : Nat => x) (SetState.mk [[], [1]] 1) 1 (by decide)
    (by decide) (by decide) (by decide)).2 (by decide)
  have hc : (mapErase (fun x : Nat => x)
      (MapState.mk [[], [(1, 7)]] 1) 1).1.count = 1 - 1 := h2.2.2.2.2.1
  exact ⟨h2.1, by rw [hc], h3.1⟩

/-- C6: within each bucket's chain at most one node holds any given key, and
this invariant is preserved by Insert, Erase, the unlocked FastInsert, and
Resize, on both the Map and the Set. -/
theorem C6_no_duplicate_keys {K V W : Type} [DecidableEq K] [DecidableEq W]
    (hash : K → Nat) (m : MapState K V) (hw : W → Nat) (s : SetState W)
    (hn : 0 < m.buckets.length) (hns : 0 < s.buckets.length)
    (hnd : ChainsNodup m) (hnds : SetChainsNodup s) :
    (∀ k v r, ChainsNodup (mapInsert hash m k v r).1) ∧
    (∀ k, ChainsNodup (mapErase hash m k).1) ∧
    (∀ k v, ChainsNodup (mapFastInsert hash m k v)) ∧
    (∀ nr, ChainsNodup (mapResize hash m nr)) ∧
    (∀ x, SetChainsNodup (setInsert hw s x)) ∧
    (∀ x, SetChainsNodup (setErase hw s x).1) ∧
    (∀ x, SetChainsNodup (setFastInsert hw s x)) ∧
    (∀ nr, SetChainsNodup (setResize hw s nr)) :=
  ⟨fun k v r => chainsNodup_mapInsert hash m k v r hn hnd,
   fun k => chainsNodup_mapErase hash m k hn hnd,
   fun k v => chainsNodup_mapFastInsert hash m k v hn hnd,
   fun nr => chainsNodup_mapResize hash m nr hnd,
   fun x => setChainsNodup_setInsert hw s x hns hnds,
   fun x => setChainsNodup_setErase hw s x hns hnds,
   fun x => setChainsNodup_setFastInsert hw s x hns hnds,
   fun nr => setChainsNodup_setResize hw s nr hnds⟩

/-- Witness for C6 on concrete tables and inputs. -/
theorem C6_witness :
    ChainsNodup (mapInsert (fun x : Nat => x)
      (mapEmpty Nat Nat 2) 1 5 false).1 ∧
    ChainsNodup (mapResize (fun x : Nat => x) (mapEmpty Nat Nat 2) 4) ∧
    SetChainsNodup (setInsert (fun x : Nat => x) (setEmpty Nat 2) 1) ∧
    SetChainsNodup (setResize (fun x : Nat => x) (setEmpty Nat 2) 4) := by
  have h := @C6_no_duplicate_keys Nat Nat Nat _ _ (fun x : Nat => x)
    (mapEmpty Nat Nat 2) (fun x : Nat => x) (setEmpty Nat 2)
    (by decide) (by decide) (by decide) (by decide)
  exact ⟨h.1 1 5 false, h.2.2.2.1 4, h.2.2.2.2.1 1, h.2.2.2.2.2.2.2 4⟩

/-- C7: on a well-formed table whose counter matches its node total,
Resize(n) with n > 0 preserves the result of Find/Contains for every key
and Size(), and leaves exactly n buckets; Resize() with no argument doubles
the bucket count; Resize(0) leaves the table entirely unchanged.  The same
holds for the Set. -/
theorem C7_resize_semantics {K V W : Type} [DecidableEq K] [DecidableEq W]
    (hash : K → Nat) (m : MapState K V) (hw : W → Nat) (s : SetState W)
    (hm : 0 < m.buckets.length) (hWF : mapWF hash m)
    (hcnt : m.count = totalNodes m) (hbound : totalNodes m < U64)
    (hms : 0 < s.buckets.length) (hWFs : setWF hw s)
    (hcnts : s.count = setTotalNodes s) (hbs : setTotalNodes s < U64) :
    (∀ n, 0 < n →
      (∀ k, mapFind hash (mapResize hash m n) k = mapFind hash m k) ∧
      (∀ k, mapContains hash (mapResize hash m n) k =
        mapContains hash m k) ∧
      mapSize (mapResize hash m n) = mapSize m ∧
      (mapResize hash m n).buckets.length = n) ∧
    (m.buckets.length * 2 < U64 →
      (mapResizeDouble hash m).buckets.length = m.buckets.length * 2) ∧
    mapResize hash m 0 = m ∧
    (∀ n, 0 < n →
      (∀ x, setContains hw (setResize hw s n) x = setContains hw s x) ∧
      setSize (setResize hw s n) = setSize s ∧
      (setResize hw s n).buckets.length = n) ∧
    (s.buckets.length * 2 < U64 →
      (setResizeDouble hw s).buckets.length = s.buckets.length * 2) ∧
    setResize hw s 0 = s := by
  refine ⟨fun n hp => ⟨fun k => mapResize_find hash m n hWF hm hp hbound k,
      fun k => ?_, ?_, mapResize_buckets_length hash m n hWF hp hbound⟩,
    ?_, mapResize_zero hash m,
    fun n hp => ⟨fun x => setResize_contains hw s n hWFs hms hp hbs x,
      ?_, setResize_buckets_length hw s n hWFs hp hbs⟩,
    ?_, setResize_zero hw s⟩
  · rw [mapContains_eq_isSome, mapContains_eq_isSome,
      mapResize_find hash m n hWF hm hp hbound k]
  · show (mapResize hash m n).count = m.count
    rw [mapResize_count hash m n hWF hp hbound, hcnt]
  · intro hdouble
    rcases Nat.eq_zero_or_pos m.buckets.length with hz | hpz
    · rw [mapResizeDouble, hz]
      show (mapResize hash m ((0 * 2) % U64)).buckets.length = 0 * 2
      have h0 : (0 * 2) % U64 = 0 := by norm_num
      rw [h0, mapResize_zero, hz]
    · rw [mapResizeDouble, Nat.mod_eq_of_lt hdouble]
      exact mapResize_buckets_length hash m (m.buckets.length * 2) hWF
        (by omega) hbound
  · show (setResize hw s n).count = s.count
    rw [setResize_count hw s n hWFs hp hbs, hcnts]
  · intro hdouble
    rcases Nat.eq_zero_or_pos s.buckets.length with hz | hpz
    · rw [setResizeDouble, hz]
      show (setResize hw s ((0 * 2) % U64)).buckets.length = 0 * 2
      have h0 : (0 * 2) % U64 = 0 := by norm_num
      rw [h0, setResize_zero, hz]
    · rw [setResizeDouble, Nat.mod_eq_of_lt hdouble]
      exact setResize_buckets_length hw s (s.buckets.length * 2) hWFs
        (by omega) hbs

/-- Witness for C7 on concrete one-entry tables. -/
theorem C7_witness :
    (∀ k, mapFind (fun x : Nat => x)
      (mapResize (fun x : Nat => x) (MapState.mk [[], [(1, 7)]] 1) 5) k =
      mapFind (fun x : Nat => x) (MapState.mk [[], [(1, 7)]] 1) k) ∧
    (mapResize (fun x : Nat => x) (MapState.mk [[], [(1, 7)]] 1) 5).buckets.length = 5 ∧
    mapResize (fun x : Nat => x) (MapState.mk [[], [(1, 7)]] 1) 0 =
      MapState.mk [[], [(1, 7)]] 1 ∧
    (setResize (fun x : Nat => x) (SetState.mk [[], [1]] 1) 5).buckets.length = 5 := by
  have h := @C7_resize_semantics Nat Nat Nat _ _ (fun x : Nat => x)
    (MapState.mk [[], [(1, 7)]] 1) (fun x : Nat => x) (SetState.mk [[], [1]] 1)
    (by decide) (by decide) (by decide) (by decide)
    (by decide) (by decide) (by decide) (by decide)
  exact ⟨(h.1 5 (by decide)).1, (h.1 5 (by decide)).2.2.2, h.2.2.1,
    (h.2.2.2.1 5 (by decide)).2.2⟩

/-- C3: after any finite call sequence on a fresh table, Size() equals the
number of distinct keys whose last terminal operation was a successful
insert (the filter predicate coincides with the claim-side liveness
condition), and the counter-equals-live-nodes invariant is preserved by
Insert, Erase, FastInsert and Resize on both the Map and the Set. -/
theorem C3_size_invariant {K V W : Type} [DecidableEq K] [DecidableEq W] :
    (∀ (hash : K → Nat) (n : Nat) (ops : List (MapOp K V)), 0 < n →
      ops.length < U64 →
      (runOps hash (mapEmpty K V n) ops).count =
        ((insertedKeys ops).dedup.filter (fun k => keyLiveB k ops)).length ∧
      ∀ k, (keyLiveB k ops = true ↔ SpecLive hash n ops k)) ∧
    (∀ (hash : K → Nat) (m : MapState K V), 0 < m.buckets.length →
      mapWF hash m → m.count = totalNodes m → totalNodes m + 1 < U64 →
      (∀ k v r, (mapInsert hash m k v r).1.count =
        totalNodes (mapInsert hash m k v r).1) ∧
      (∀ k, (mapErase hash m k).1.count = totalNodes (mapErase hash m k).1) ∧
      (∀ k v, (mapFastInsert hash m k v).count =
        totalNodes (mapFastInsert hash m k v)) ∧
      (∀ nr, 0 < nr → (mapResize hash m nr).count =
        totalNodes (mapResize hash m nr))) ∧
    (∀ (hw : W → Nat) (s : SetState W), 0 < s.buckets.length →
      setWF hw s → s.count = setTotalNodes s → setTotalNodes s + 1 < U64 →
      (∀ x, (setInsert hw s x).count = setTotalNodes (setInsert hw s x)) ∧
      (∀ x, (setErase hw s x).1.count = setTotalNodes (setErase hw s x).1) ∧
      (∀ x, (setFastInsert hw s x).count =
        setTotalNodes (setFastInsert hw s x)) ∧
      (∀ nr, 0 < nr → (setResize hw s nr).count =
        setTotalNodes (setResize hw s nr))) := by
  refine ⟨fun hash n ops hn hbound =>
    ⟨run_count_eq_live hash n ops hn hbound,
     fun k => (specLive_iff_keyLiveB hash n hn ops k).symm⟩, ?_, ?_⟩
  · intro hash m hn hWF hcnt hbound
    refine ⟨fun k v r => ?_, fun k => ?_, fun k v => ?_, fun nr hnr => ?_⟩
    · rw [mapInsert_count, mapInsert_totalNodes hash m k v r hn]
      by_cases hf : (mapFind hash m k).isNone
      · rw [if_pos hf, if_pos hf, hcnt, incCount_eq (totalNodes m) hbound]
      · rw [if_neg hf, if_neg hf, hcnt]
    · rw [mapErase_count, mapErase_totalNodes hash m k hn]
      by_cases hf : (mapFind hash m k).isSome
      · have hpos := mapErase_totalNodes_pos hash m k hn hf
        rw [if_pos hf, if_pos hf, hcnt,
          decCount_eq (totalNodes m) hpos (by omega)]
      · rw [if_neg hf, if_neg hf, hcnt]
    · rw [mapFastInsert_count, mapFastInsert_totalNodes hash m k v hn]
      by_cases hf : (mapFind hash m k).isNone
      · rw [if_pos hf, if_pos hf, hcnt, incCount_eq (totalNodes m) hbound]
      · rw [if_neg hf, if_neg hf, hcnt]
    · rw [mapResize_count hash m nr hWF hnr (by omega),
        mapResize_totalNodes hash m nr hWF hnr (by omega)]
  · intro hw s hns hWFs hcnts hbs
    refine ⟨fun x => ?_, fun x => ?_, fun x => ?_, fun nr hnr => ?_⟩
    · rw [setInsert_count, setInsert_totalNodes hw s x hns]
      by_cases hf : setContains hw s x
      · rw [if_pos hf, if_pos hf, hcnts]
      · rw [if_neg hf, if_neg hf, hcnts, incCount_eq (setTotalNodes s) hbs]
    · rw [setErase_count, setErase_totalNodes hw s x hns]
      by_cases hf : setContains hw s x
      · have hpos := setErase_totalNodes_pos hw s x hns hf
        rw [if_pos hf, if_pos hf, hcnts,
          decCount_eq (setTotalNodes s) hpos (by omega)]
      · rw [if_neg hf, if_neg hf, hcnts]
    · rw [setFastInsert_eq_insert, setInsert_count,
        setInsert_totalNodes hw s x hns]
      by_cases hf : setContains hw s x
      · rw [if_pos hf, if_pos hf, hcnts]
      · rw [if_neg hf, if_neg hf, hcnts, incCount_eq (setTotalNodes s) hbs]
    · rw [setResize_count hw s nr hWFs hnr (by omega),
        setResize_totalNodes hw s nr hWFs hnr (by omega)]

/-- Witness for C3 on a concrete sequence and concrete tables. -/
theorem C3_witness :
    (runOps (fun x : Nat => x) (mapEmpty Nat Nat 2)
        [MapOp.insert 1 10 false, MapOp.insert 2 20 false,
         MapOp.erase 1]).count =
      ((insertedKeys [MapOp.insert 1 10 false, MapOp.insert 2 20 false,
          MapOp.erase (1 : Nat)]).dedup.filter
        (fun k => keyLiveB k
          [MapOp.insert 1 10 false, MapOp.insert 2 20 false,
           MapOp.erase 1])).length ∧
    (mapInsert (fun x : Nat => x)
        (MapState.mk [[], [(1, 7)]] 1) 2 9 false).1.count =
      totalNodes (mapInsert (fun x : Nat => x)
        (MapState.mk [[], [(1, 7)]] 1) 2 9 false).1 ∧
    (setErase (fun x : Nat => x) (SetState.mk [[], [1]] 1) 1).1.count =
      setTotalNodes (setErase (fun x : Nat => x)
        (SetState.mk [[], [1]] 1) 1).1 := by
  have h := @C3_size_invariant Nat Nat Nat _ _
  refine ⟨(h.1 (fun x : Nat => x) 2
      [MapOp.insert 1 10 false, MapOp.insert 2 20 false, MapOp.erase 1]
      (by decide) (by decide)).1, ?_, ?_⟩
  · exact (h.2.1 (fun x : Nat => x) (MapState.mk [[], [(1, 7)]] 1)
      (by decide) (by decide) (by decide) (by decide)).1 2 9 false
  · exact (h.2.2 (fun x : Nat => x) (SetState.mk [[], [1]] 1)
      (by decide) (by decide) (by decide) (by decide)).2.1 1

/-- C9 scenario, step 1: `Insert("aboba", 10)` on a fresh 2-bucket map. -/
def c9s1 (hash : String → Nat) : MapState String Nat × Bool :=
  mapInsert hash (mapEmpty String Nat 2) "aboba" 10 false

/-- C9 scenario, step 2: `Insert("aboba", 5, replace=true)`. -/
def c9s2 (hash : String → Nat) : MapState String Nat × Bool :=
  mapInsert hash (c9s1 hash).1 "aboba" 5 true

/-- C9 scenario, step 3: `Insert("zeleboba", 10)`. -/
def c9s3 (hash : String → Nat) : MapState String Nat × Bool :=
  mapInsert hash (c9s2 hash).1 "zeleboba" 10 false

/-- C9 scenario, step 4: `Insert("dassyr", 20)`. -/
def c9s4 (hash : String → Nat) : MapState String Nat × Bool :=
  mapInsert hash (c9s3 hash).1 "dassyr" 20 false

/-- C9 scenario, step 5: first `Erase("aboba")`. -/
def c9e1 (hash : String → Nat) : MapState String Nat × Bool :=
  mapErase hash (c9s4 hash).1 "aboba"

/-- C9 scenario, step 6: second `Erase("aboba")`. -/
def c9e2 (hash : String → Nat) : MapState String Nat × Bool :=
  mapErase hash (c9e1 hash).1 "aboba"

/-- C9 counterexample: in the claimed scenario "zeleboba" was inserted with
value 10 and never updated, so the final `Find("zeleboba")` returns 10, not
the claimed 5 (here at the concrete hash `String.length`). -/
theorem C9_counterexample :
    mapFind (fun s : String => s.length)
      (c9e2 (fun s : String => s.length)).1 "zeleboba" = some 10 ∧
    ¬ mapFind (fun s : String => s.length)
      (c9e2 (fun s : String => s.length)).1 "zeleboba" = some 5 := by
  constructor
  · decide
  · decide

/-- C9 (amended): on a Map with 2 buckets, the sequence Insert("aboba",10),
Insert("aboba",5,replace=true), Insert("zeleboba",10), Insert("dassyr",20),
Erase("aboba"), Erase("aboba") yields: the two first inserts return true,
Find("aboba") after them returns 5, the first Erase("aboba") returns true
and the second false, then Find("aboba") is empty, Find("dassyr") returns
20, and Find("zeleboba") returns 10 (the value it was inserted with). -/
theorem C9_amended (hash : String → Nat) :
    (c9s1 hash).2 = true ∧ (c9s2 hash).2 = true ∧
    mapFind hash (c9s2 hash).1 "aboba" = some 5 ∧
    (c9e1 hash).2 = true ∧ (c9e2 hash).2 = false ∧
    mapFind hash (c9e2 hash).1 "aboba" = none ∧
    mapFind hash (c9e2 hash).1 "dassyr" = some 20 ∧
    mapFind hash (c9e2 hash).1 "zeleboba" = some 10 := by
  have hne_za : "zeleboba" ≠ "aboba" := by decide
  have hne_da : "dassyr" ≠ "aboba" := by decide
  have hne_az : "aboba" ≠ "zeleboba" := by decide
  have hne_dz : "dassyr" ≠ "zeleboba" := by decide
  have hne_ad : "aboba" ≠ "dassyr" := by decide
  have hne_zd : "zeleboba" ≠ "dassyr" := by decide
  have hn0 : 0 < (mapEmpty String Nat 2).buckets.length := by decide
  have l1 : (c9s1 hash).1.buckets.length = 2 := by
    simp only [c9s1, mapInsert_buckets_length]
    rfl
  have hn1 : 0 < (c9s1 hash).1.buckets.length := by
    rw [l1]
    omega
  have l2 : (c9s2 hash).1.buckets.length = 2 := by
    simp only [c9s2, mapInsert_buckets_length]
    exact l1
  have hn2 : 0 < (c9s2 hash).1.buckets.length := by
    rw [l2]
    omega
  have l3 : (c9s3 hash).1.buckets.length = 2 := by
    simp only [c9s3, mapInsert_buckets_length]
    exact l2
  have hn3 : 0 < (c9s3 hash).1.buckets.length := by
    rw [l3]
    omega
  have l4 : (c9s4 hash).1.buckets.length = 2 := by
    simp only [c9s4, mapInsert_buckets_length]
    exact l3
  have hn4 : 0 < (c9s4 hash).1.buckets.length := by
    rw [l4]
    omega
  have l5 : (c9e1 hash).1.buckets.length = 2 := by
    simp only [c9e1, mapErase_buckets_length]
    exact l4
  have hn5 : 0 < (c9e1 hash).1.buckets.length := by
    rw [l5]
    omega
  have w0 : mapWF hash (mapEmpty String Nat 2) := mapWF_empty hash 2
  have w1 : mapWF hash (c9s1 hash).1 := by
    simp only [c9s1]
    exact mapWF_mapInsert hash _ "aboba" 10 false w0 hn0
  have w2 : mapWF hash (c9s2 hash).1 := by
    simp only [c9s2]
    exact mapWF_mapInsert hash _ "aboba" 5 true w1 hn1
  have w3 : mapWF hash (c9s3 hash).1 := by
    simp only [c9s3]
    exact mapWF_mapInsert hash _ "zeleboba" 10 false w2 hn2
  have w4 : mapWF hash (c9s4 hash).1 := by
    simp only [c9s4]
    exact mapWF_mapInsert hash _ "dassyr" 20 false w3 hn3
  have w5 : mapWF hash (c9e1 hash).1 := by
    simp only [c9e1]
    exact mapWF_mapErase hash _ "aboba" w4 hn4
  have f0a : mapFind hash (mapEmpty String Nat 2) "aboba" = none :=
    mapFind_mapEmpty hash 2 "aboba"
  have f0z : mapFind hash (mapEmpty String Nat 2) "zeleboba" = none :=
    mapFind_mapEmpty hash 2 "zeleboba"
  have f0d : mapFind hash (mapEmpty String Nat 2) "dassyr" = none :=
    mapFind_mapEmpty hash 2 "dassyr"
  have r1 : (c9s1 hash).2 = true := by
    simp only [c9s1]
    rw [mapInsert_ret, f0a]
    rfl
  have f1a : mapFind hash (c9s1 hash).1 "aboba" = some 10 := by
    simp only [c9s1]
    rw [mapFind_mapInsert_self hash _ "aboba" 10 false hn0, f0a]
  have f1z : mapFind hash (c9s1 hash).1 "zeleboba" = none := by
    simp only [c9s1]
    rw [mapFind_mapInsert_ne hash _ "aboba" "zeleboba" 10 false hn0 hne_za]
    exact f0z
  have f1d : mapFind hash (c9s1 hash).1 "dassyr" = none := by
    simp only [c9s1]
    rw [mapFind_mapInsert_ne hash _ "aboba" "dassyr" 10 false hn0 hne_da]
    exact f0d
  have r2 : (c9s2 hash).2 = true := by
    simp only [c9s2]
    rw [mapInsert_ret, f1a]
    rfl
  have f2a : mapFind hash (c9s2 hash).1 "aboba" = some 5 := by
    simp only [c9s2]
    rw [mapFind_mapInsert_self hash _ "aboba" 5 true hn1, f1a]
    rfl
  have f2z : mapFind hash (c9s2 hash).1 "zeleboba" = none := by
    simp only [c9s2]
    rw [mapFind_mapInsert_ne hash _ "aboba" "zeleboba" 5 true hn1 hne_za]
    exact f1z
  have f2d : mapFind hash (c9s2 hash).1 "dassyr" = none := by
    simp only [c9s2]
    rw [mapFind_mapInsert_ne hash _ "aboba" "dassyr" 5 true hn1 hne_da]
    exact f1d
  have f3z : mapFind hash (c9s3 hash).1 "zeleboba" = some 10 := by
    simp only [c9s3]
    rw [mapFind_mapInsert_self hash _ "zeleboba" 10 false hn2, f2z]
  have f3a : mapFind hash (c9s3 hash).1 "aboba" = some 5 := by
    simp only [c9s3]
    rw [mapFind_mapInsert_ne hash _ "zeleboba" "aboba" 10 false hn2 hne_az]
    exact f2a
  have f3d : mapFind hash (c9s3 hash).1 "dassyr" = none := by
    simp only [c9s3]
    rw [mapFind_mapInsert_ne hash _ "zeleboba" "dassyr" 10 false hn2 hne_dz]
    exact f2d
  have f4d : mapFind hash (c9s4 hash).1 "dassyr" = some 20 := by
    simp only [c9s4]
    rw [mapFind_mapInsert_self hash _ "dassyr" 20 false hn3, f3d]
  have f4a : mapFind hash (c9s4 hash).1 "aboba" = some 5 := by
    simp only [c9s4]
    rw [mapFind_mapInsert_ne hash _ "dassyr" "aboba" 20 false hn3 hne_ad]
    exact f3a
  have f4z : mapFind hash (c9s4 hash).1 "zeleboba" = some 10 := by
    simp only [c9s4]
    rw [mapFind_mapInsert_ne hash _ "dassyr" "zeleboba" 20 false hn3 hne_zd]
    exact f3z
  have r5 : (c9e1 hash).2 = true := by
    simp only [c9e1]
    rw [mapErase_ret, f4a]
    rfl
  have f5a : mapFind hash (c9e1 hash).1 "aboba" = none := by
    simp only [c9e1]
    exact mapFind_mapErase_self hash _ "aboba" hn4
      (mapBucket_nodup hash _ "aboba" w4.1 hn4)
  have f5z : mapFind hash (c9e1 hash).1 "zeleboba" = some 10 := by
    simp only [c9e1]
    rw [mapFind_mapErase_ne hash _ "aboba" "zeleboba" hn4 hne_za]
    exact f4z
  have f5d : mapFind hash (c9e1 hash).1 "dassyr" = some 20 := by
    simp only [c9e1]
    rw [mapFind_mapErase_ne hash _ "aboba" "dassyr" hn4 hne_da]
    exact f4d
  have r6 : (c9e2 hash).2 = false := by
    simp only [c9e2]
    rw [mapErase_ret, f5a]
    rfl
  have f6a : mapFind hash (c9e2 hash).1 "aboba" = none := by
    simp only [c9e2]
    exact mapFind_mapErase_self hash _ "aboba" hn5
      (mapBucket_nodup hash _ "aboba" w5.1 hn5)
  have f6d : mapFind hash (c9e2 hash).1 "dassyr" = some 20 := by
    simp only [c9e2]
    rw [mapFind_mapErase_ne hash _ "aboba" "dassyr" hn5 hne_da]
    exact f5d
  have f6z : mapFind hash (c9e2 hash).1 "zeleboba" = some 10 := by
    simp only [c9e2]
    rw [mapFind_mapErase_ne hash _ "aboba" "zeleboba" hn5 hne_za]
    exact f5z
  exact ⟨r1, r2, f2a, r5, r6, f6a, f6d, f6z⟩
